import Mathlib

/-!
# QLearningAgent: a shallow embedding of `qlearningagent.cpp`

Conventions of the embedding.

* `int` is modelled by `Int` (states, actions and stored Q-values are only
  copied, compared and used as keys; no `int` arithmetic is performed on them).
* `double` is modelled by exact rational arithmetic (`ℚ`).  The conversion
  `int → double` is the cast `Int → ℚ`; the conversion `double → int` that
  happens when a `double` is assigned to an element of `m_qTable`
  (declared `std::map<int, std::map<int, int>>`) is truncation toward zero.
  Rounding of `double` operations and values outside the range of `int`
  (for which the conversion is undefined) are not modelled: the number the
  model computes in an update step is the number the program computes only
  where every `double` operation of the step is exact and the result is in
  the range of `int`. The concrete evaluations below use values that
  `double` and `int` represent exactly or whose truncation does not depend on
  the rounding; the properties proved for all inputs are about the key
  structure of the maps, the episode trace and the control flow, none of
  which depends on the numbers computed. Where a lemma mentions the number
  of an arbitrary update step (`stopSession_single_step`, `updateStep_eq`,
  `updateStep_entry`) it speaks of this exact arithmetic and serves the
  concrete evaluations and the key structure.
* `std::map<int, V>` is modelled by the list of its key/value pairs in
  ascending key order, the order in which the C++ container is iterated.
* `rand()` is modelled by passing the outcome of each call as an argument.
* `throw std::runtime_error(..)` is modelled by `Except.error`.
* `m_environment` is a pointer to an `Environment` owned by the driver; the
  functions that dereference it take the pointed-to environment as an argument.
-/

namespace QLearning

/-! ## `std::map<int, V>` -/

namespace IntMap

/-- Keys strictly ascending: the representation invariant of `std::map`. -/
def Sorted {V : Type} (m : List (Int × V)) : Prop :=
  List.Pairwise (fun x y => x.1 < y.1) m

/-- The member `find` of `std::map`: the value stored under key `k`, `none` for `end()`. -/
def find {V : Type} : List (Int × V) → Int → Option V
  | [], _ => none
  | (k', v) :: rest, k => if k' = k then some v else find rest k

/-- The assignment `m[k] = v`: the value under `k` is overwritten, or the pair
`(k, v)` is inserted at its place in key order. -/
def insert {V : Type} : List (Int × V) → Int → V → List (Int × V)
  | [], k, v => [(k, v)]
  | (k', v') :: rest, k, v =>
    if k < k' then (k, v) :: (k', v') :: rest
    else if k = k' then (k, v) :: rest
    else (k', v') :: insert rest k v

/-- The read `m[k]` through `operator[]`: returns the stored value; when the key
is absent a value-initialised element `dflt` is inserted first. The second
component is the map after the access. -/
def access {V : Type} (m : List (Int × V)) (k : Int) (dflt : V) : V × List (Int × V) :=
  match find m k with
  | some v => (v, m)
  | none => (dflt, insert m k dflt)

/-- The read `m[k1][k2]` of a nested map of `int`s: both `operator[]` calls
insert a value-initialised element (an empty row, the value `0`) when their
key is absent. Returns the value read and the map after the access. -/
def read2 (m : List (Int × List (Int × Int))) (k1 k2 : Int) :
    Int × List (Int × List (Int × Int)) :=
  let (row, m1) := access m k1 []
  let (v, row1) := access row k2 0
  (v, insert m1 k1 row1)

/-- The assignment `m[k1][k2] = v` on a nested map. -/
def assign2 {V : Type} (m : List (Int × List (Int × V))) (k1 k2 : Int) (v : V) :
    List (Int × List (Int × V)) :=
  let (row, m1) := access m k1 []
  insert m1 k1 (insert row k2 v)

end IntMap

/-! ## `std::max_element` -/

/-- The loop of `std::max_element(first, last, comp)` once `largest` has been
initialised with the first element: `largest` is replaced by a later element
only when `comp(*largest, *it)` holds, so among equivalent greatest elements
the first one met is kept. -/
def max_element_from {A : Type} (comp : A → A → Bool) : A → List A → A
  | largest, [] => largest
  | largest, x :: rest =>
    if comp largest x then max_element_from comp x rest
    else max_element_from comp largest rest

/-- The comparator lambda of `bestTransition` and `maxQ`:
`a.second < b.second`. -/
def compSecond (a b : Int × Int) : Bool := decide (a.2 < b.2)

/-! ## Environment -/

/-- The class `Environment`: its only data member is `m_transitions`. -/
structure Environment where
  m_transitions : List (Int × List (Int × Int))
  deriving DecidableEq, Repr

namespace Environment

/-- `Environment::setTransition`: `m_transitions[currentState][action] = nextState`. -/
def setTransition (env : Environment) (currentState action nextState : Int) : Environment :=
  { m_transitions := IntMap.assign2 env.m_transitions currentState action nextState }

/-- `Environment::availableActions`: the keys of the row of `state`, in
iteration order; empty when the state has no row. -/
def availableActions (env : Environment) (state : Int) : List Int :=
  match IntMap.find env.m_transitions state with
  | none => []
  | some row => row.map Prod.fst

/-- `Environment::nextState`: the configured next state, or `-1` when the
state or the action is not found. -/
def nextState (env : Environment) (state action : Int) : Int :=
  match IntMap.find env.m_transitions state with
  | none => -1
  | some row =>
    match IntMap.find row action with
    | none => -1
    | some n => n

end Environment

/-- The three `std::runtime_error`s thrown by the program. -/
inductive Error where
  /-- "No available actions for the given state" (`randomTransition`). -/
  | noAvailableActions
  /-- "Q-Table is empty!" (`bestTransition`). -/
  | qTableEmpty
  /-- "No record for the state" (`bestTransition`). -/
  | noRecord
  deriving DecidableEq, Repr

namespace Environment

/-- `Environment::randomTransition`; `r` is the outcome of its `rand()` call. -/
def randomTransition (env : Environment) (state : Int) (r : Nat) : Except Error (Int × Int) :=
  let actions := env.availableActions state
  if h : actions.length = 0 then
    .error Error.noAvailableActions
  else
    let randomAction := actions.get ⟨r % actions.length, Nat.mod_lt r (Nat.pos_of_ne_zero h)⟩
    let newState := env.nextState state randomAction
    .ok (randomAction, newState)

end Environment

/-! ## QLearningAgent -/

/-- The conversion `double → int`: the fractional part is discarded
(truncation toward zero). In C++ the conversion is undefined when the
truncated value is outside the range of `int`; the result given here for such
a value has no counterpart in the program. -/
def truncToInt (x : ℚ) : Int :=
  if 0 ≤ x then Int.floor x else Int.ceil x

/-- The data members of `QLearningAgent` (the pointer `m_environment` apart). -/
structure QLearningAgent where
  m_qTable : List (Int × List (Int × Int))
  m_actionHistory : List (Int × Int)
  m_alpha : ℚ
  m_gamma : ℚ
  m_epsilon : ℚ
  deriving DecidableEq

namespace QLearningAgent

/-- `QLearningAgent::startSession`: `m_actionHistory.clear()`. -/
def startSession (ag : QLearningAgent) : QLearningAgent :=
  { ag with m_actionHistory := [] }

/-- `QLearningAgent::addActionHistory`: `m_actionHistory.push_back({state, action})`. -/
def addActionHistory (ag : QLearningAgent) (state action : Int) : QLearningAgent :=
  { ag with m_actionHistory := ag.m_actionHistory ++ [(state, action)] }

/-- `QLearningAgent::bestTransition` on the table `q`; returns the outcome and
the table after the call (`m_qTable[state]` may insert an empty row). -/
def bestTransition (env : Environment) (q : List (Int × List (Int × Int))) (state : Int) :
    Except Error (Int × Int) × List (Int × List (Int × Int)) :=
  if q.isEmpty then
    (.error Error.qTableEmpty, q)
  else
    let (actionMap, q1) := IntMap.access q state []
    match actionMap with
    | [] => (.error Error.noRecord, q1)
    | first :: rest =>
      let action := (max_element_from compSecond first rest).1
      let nextState := env.nextState state action
      (.ok (action, nextState), q1)

/-- `QLearningAgent::maxQ` on the table `q`; returns the value and the table
after the call (`m_qTable[state]` may insert an empty row). -/
def maxQ (q : List (Int × List (Int × Int))) (state : Int) :
    ℚ × List (Int × List (Int × Int)) :=
  if state = -1 then
    (0, q)
  else
    let (nextStateActions, q1) := IntMap.access q state []
    match nextStateActions with
    | [] => (0, q1)
    | first :: rest => (((max_element_from compSecond first rest).2 : ℚ), q1)

/-- `QLearningAgent::chooseTransition`. `RAND_MAX` is the constant of
`<cstdlib>`; `r1` is the outcome of the `rand()` call of the ε test (made only
when the two tests before it are false) and `r2` the outcome of the `rand()`
call inside `randomTransition`. Returns the outcome and the agent afterwards. -/
def chooseTransition (env : Environment) (RAND_MAX : Nat) (ag : QLearningAgent)
    (state : Int) (r1 r2 : Nat) : Except Error (Int × Int) × QLearningAgent :=
  if ag.m_qTable.isEmpty then
    (env.randomTransition state r2, ag)
  else
    let (row, q1) := IntMap.access ag.m_qTable state []
    if row.isEmpty then
      (env.randomTransition state r2, { ag with m_qTable := q1 })
    else if (r1 : ℚ) / (RAND_MAX : ℚ) < ag.m_epsilon then
      (env.randomTransition state r2, { ag with m_qTable := q1 })
    else
      let (res, q2) := bestTransition env q1 state
      (res, { ag with m_qTable := q2 })

/-- One iteration of the loop of `updateQTable` for the history item
`(state, action)`: the table and `totalReward` before, the table and
`totalReward` after. -/
def updateStep (env : Environment) (alpha gamma : ℚ)
    (st : List (Int × List (Int × Int)) × ℚ) (item : Int × Int) :
    List (Int × List (Int × Int)) × ℚ :=
  let state := item.1
  let action := item.2
  let nextState := env.nextState state action
  -- double currentQValue = m_qTable[state][action];
  let (stored, q1) := IntMap.read2 st.1 state action
  let currentQValue : ℚ := (stored : ℚ)
  -- currentQValue += m_alpha * (totalReward + m_gamma * maxQ(nextState) - currentQValue);
  let (mq, q2) := maxQ q1 nextState
  let currentQValue := currentQValue + alpha * (st.2 + gamma * mq - currentQValue)
  -- m_qTable[state][action] = currentQValue;
  let q3 := IntMap.assign2 q2 state action (truncToInt currentQValue)
  -- totalReward = currentQValue;
  (q3, currentQValue)

/-- The loop `for (size_t i = m_actionHistory.size(); i > 0; --i)` of
`updateQTable`, entered with loop variable `i`. -/
def updateLoop (env : Environment) (alpha gamma : ℚ) (history : List (Int × Int)) :
    Nat → List (Int × List (Int × Int)) × ℚ → List (Int × List (Int × Int)) × ℚ
  | 0, st => st
  | i + 1, st =>
    match history.get? i with
    | some item => updateLoop env alpha gamma history i (updateStep env alpha gamma st item)
    | none => updateLoop env alpha gamma history i st

/-- `QLearningAgent::updateQTable`. -/
def updateQTable (env : Environment) (ag : QLearningAgent) (reward : Int) : QLearningAgent :=
  if ag.m_actionHistory.isEmpty then
    ag
  else
    let totalReward : ℚ := (reward : ℚ)
    let res := updateLoop env ag.m_alpha ag.m_gamma ag.m_actionHistory
      ag.m_actionHistory.length (ag.m_qTable, totalReward)
    { ag with m_qTable := res.1 }

/-- `QLearningAgent::stopSession`. -/
def stopSession (env : Environment) (ag : QLearningAgent) (reward : Int) : QLearningAgent :=
  updateQTable env ag reward

end QLearningAgent

/-! ## Observations used to state the properties -/

/-- The action-values recorded for `state` in the table `q`, in iteration
order: the entries of the row of `state`, none when the table has no such row. -/
def recorded (q : List (Int × List (Int × Int))) (state : Int) : List (Int × Int) :=
  match IntMap.find q state with
  | none => []
  | some row => row

/-! ## The backward pass as the specification words it

These definitions follow the words of the specification (§3 and §4.2), not the
source: the Q-table maps a state to a mapping from actions to real-valued
estimates. They are what `updateQTable` is compared with. -/

/-- The specification's `Q[s][a]`, "0 if absent". -/
def specQ (Q : List (Int × List (Int × ℚ))) (s a : Int) : ℚ :=
  match IntMap.find Q s with
  | none => 0
  | some row =>
    match IntMap.find row a with
    | none => 0
    | some v => v

/-- The specification's `maxQ(state)`: "returns 0 if `state` is the invalid
sentinel or has no recorded entries; otherwise the maximum recorded
action-value for that state". -/
def specMaxQ (Q : List (Int × List (Int × ℚ))) (s : Int) : ℚ :=
  if s = -1 then 0
  else
    match IntMap.find Q s with
    | none => 0
    | some [] => 0
    | some (p :: rest) => rest.foldl (fun m x => max m x.2) p.2

/-- One iteration of the specification's loop, for the trace item `(s, a)`:
`nextS = Environment.nextState(s, a)`, `oldQ = Q[s][a]`,
`newQ = oldQ + α * (carried + γ * maxQ(nextS) - oldQ)`, `Q[s][a] = newQ`,
`carried = newQ`. -/
def specStep (env : Environment) (alpha gamma : ℚ)
    (st : List (Int × List (Int × ℚ)) × ℚ) (item : Int × Int) :
    List (Int × List (Int × ℚ)) × ℚ :=
  let nextS := env.nextState item.1 item.2
  let oldQ := specQ st.1 item.1 item.2
  let newQ := oldQ + alpha * (st.2 + gamma * specMaxQ st.1 nextS - oldQ)
  (IntMap.assign2 st.1 item.1 item.2 newQ, newQ)

/-- The specification's backward pass: `carried = R`, then one iteration for
each trace item, from the last one down to the first. -/
def specBackwardPass (env : Environment) (alpha gamma : ℚ) (trace : List (Int × Int))
    (Q : List (Int × List (Int × ℚ))) (R : ℚ) : List (Int × List (Int × ℚ)) :=
  (trace.foldr (fun item st => specStep env alpha gamma st item) (Q, R)).1

/-- The value recorded for `(s, a)` in the table of the program, read as a
real number, 0 if absent. -/
def qValue (q : List (Int × List (Int × Int))) (s a : Int) : ℚ :=
  match IntMap.find (recorded q s) a with
  | none => 0
  | some v => (v : ℚ)

/-! ## Call histories of the environment and of the driver -/

/-- The next state configured for `(state, action)` in the transition map,
`none` when the state has no row or the row has no such action. -/
def configured (env : Environment) (state action : Int) : Option Int :=
  match IntMap.find env.m_transitions state with
  | none => none
  | some row => IntMap.find row action

/-- The environment a driver obtains from a freshly constructed `Environment`
by the calls `setTransition(s, a, n)` for the triples `(s, a, n)` of `calls`,
in that order. -/
def build (calls : List (Int × Int × Int)) : Environment :=
  calls.foldl (fun env c => env.setTransition c.1 c.2.1 c.2.2) ⟨[]⟩

/-- The next state given by the last call `setTransition(s, a, _)` of `calls`,
`none` when there is no such call. -/
def lastSet (calls : List (Int × Int × Int)) (s a : Int) : Option Int :=
  calls.foldl (fun acc c => if c.1 = s ∧ c.2.1 = a then some c.2.2 else acc) none

/-- The value recorded in the Q-table `q` for the pair `(s, a)`, `none` when
the pair has no entry. -/
def entry (q : List (Int × List (Int × Int))) (s a : Int) : Option Int :=
  IntMap.find (recorded q s) a

/-- The calls a driver makes on the agent during an episode. -/
inductive EpisodeCall where
  /-- `addActionHistory(state, action)`. -/
  | addActionHistory (state action : Int)
  /-- `chooseTransition(state)`, with the outcomes of its `rand()` calls. -/
  | chooseTransition (state : Int) (r1 r2 : Nat)

/-- The agent after one call of the episode (an exception thrown by
`chooseTransition` leaves the agent as the call left it). -/
def runEpisodeCall (env : Environment) (RAND_MAX : Nat) (ag : QLearningAgent) :
    EpisodeCall → QLearningAgent
  | .addActionHistory state action => ag.addActionHistory state action
  | .chooseTransition state r1 r2 => (ag.chooseTransition env RAND_MAX state r1 r2).2

/-- The arguments of the `addActionHistory` calls of an episode, in call order. -/
def addedPairs : List EpisodeCall → List (Int × Int)
  | [] => []
  | .addActionHistory state action :: rest => (state, action) :: addedPairs rest
  | .chooseTransition _ _ _ :: rest => addedPairs rest

/-- The calls of a driver that follows the protocol of `main`: it records a
step only with the action that `chooseTransition` has just returned for the
same state. -/
inductive ProtocolCall where
  /-- `environment.setTransition(s, a, n)`. -/
  | setTransition (s a n : Int)
  /-- `agent.startSession()`. -/
  | startSession
  /-- `agent.chooseTransition(state)` whose result is not recorded. -/
  | choose (state : Int) (r1 r2 : Nat)
  /-- `agent.chooseTransition(state)` followed, when it returned a transition
  `(action, _)`, by `agent.addActionHistory(state, action)`. -/
  | chooseAndRecord (state : Int) (r1 r2 : Nat)
  /-- `agent.stopSession(reward)`. -/
  | stopSession (reward : Int)

/-- The environment and the agent after one call of the protocol. -/
def runProtocolCall (RAND_MAX : Nat) (st : Environment × QLearningAgent) :
    ProtocolCall → Environment × QLearningAgent
  | .setTransition s a n => (st.1.setTransition s a n, st.2)
  | .startSession => (st.1, st.2.startSession)
  | .choose state r1 r2 => (st.1, (st.2.chooseTransition st.1 RAND_MAX state r1 r2).2)
  | .chooseAndRecord state r1 r2 =>
    match st.2.chooseTransition st.1 RAND_MAX state r1 r2 with
    | (.ok t, ag) => (st.1, ag.addActionHistory state t.1)
    | (.error _, ag) => (st.1, ag)
  | .stopSession reward => (st.1, st.2.stopSession st.1 reward)

/-- The invariant of the protocol: every pair of the episode trace and every
pair that has an entry in the Q-table is a configured transition. -/
def ProtocolInv (st : Environment × QLearningAgent) : Prop :=
  (∀ p ∈ st.2.m_actionHistory, p.2 ∈ st.1.availableActions p.1) ∧
  (∀ s a, entry st.2.m_qTable s a ≠ none → a ∈ st.1.availableActions s)

/-! ## Facts about `std::map` and `std::max_element` -/

namespace IntMap

theorem find_insert_self {V : Type} (m : List (Int × V)) (k : Int) (v : V) :
    find (insert m k v) k = some v := by
  induction m with
  | nil => simp [insert, find]
  | cons p rest ih =>
    obtain ⟨k', v'⟩ := p
    unfold insert
    split_ifs with h1 h2
    · simp [find]
    · simp [find]
    · have hne : ¬ k' = k := fun h => h2 h.symm
      simp [find, hne, ih]

theorem find_insert_ne {V : Type} (m : List (Int × V)) (k j : Int) (v : V) (hj : j ≠ k) :
    find (insert m k v) j = find m j := by
  induction m with
  | nil =>
    have hkj : ¬ k = j := fun h => hj h.symm
    simp [insert, find, hkj]
  | cons p rest ih =>
    obtain ⟨k', v'⟩ := p
    have hkj : ¬ k = j := fun h => hj h.symm
    unfold insert
    split_ifs with h1 h2
    · simp [find, hkj]
    · subst h2
      simp [find, hkj]
    · by_cases h3 : k' = j
      · simp [find, h3]
      · simp [find, h3, ih]

theorem mem_of_find {V : Type} (m : List (Int × V)) (k : Int) (v : V)
    (h : find m k = some v) : (k, v) ∈ m := by
  induction m with
  | nil => simp [find] at h
  | cons p rest ih =>
    obtain ⟨k', v'⟩ := p
    by_cases hk : k' = k
    · simp [find, hk] at h
      subst hk; subst h
      exact List.mem_cons_self _ _
    · simp [find, hk] at h
      exact List.mem_cons_of_mem _ (ih h)

theorem find_of_mem_sorted {V : Type} (m : List (Int × V)) (k : Int) (v : V)
    (hs : Sorted m) (h : (k, v) ∈ m) : find m k = some v := by
  induction m with
  | nil => simp at h
  | cons p rest ih =>
    obtain ⟨k', v'⟩ := p
    have hs' := List.pairwise_cons.1 hs
    rcases List.mem_cons.1 h with h1 | h1
    · have hk : k = k' := congrArg Prod.fst h1
      have hv : v = v' := congrArg Prod.snd h1
      simp [find, hk, hv]
    · have hlt : k' < k := hs'.1 (k, v) h1
      have hk : ¬ k' = k := ne_of_lt hlt
      simp [find, hk]
      exact ih hs'.2 h1

theorem mem_insert_of_find_none {V : Type} (m : List (Int × V)) (k : Int) (v : V)
    (h : find m k = none) (p : Int × V) : p ∈ insert m k v ↔ p = (k, v) ∨ p ∈ m := by
  induction m with
  | nil => simp [insert]
  | cons x rest ih =>
    obtain ⟨k', v'⟩ := x
    have hk : ¬ k' = k := by
      intro hk
      simp [find, hk] at h
    have h' : find rest k = none := by
      simpa [find, hk] using h
    have hk2 : ¬ k = k' := fun e => hk e.symm
    unfold insert
    split_ifs with h1
    · simp
    · simp only [List.mem_cons, ih h']
      tauto

end IntMap

theorem max_element_from_mem {A : Type} (comp : A → A → Bool) (x : A) (l : List A) :
    max_element_from comp x l ∈ x :: l := by
  induction l generalizing x with
  | nil => simp [max_element_from]
  | cons y t ih =>
    unfold max_element_from
    split_ifs
    · exact List.mem_cons_of_mem _ (ih y)
    · rcases List.mem_cons.1 (ih x) with h | h
      · rw [h]; exact List.mem_cons_self _ _
      · exact List.mem_cons_of_mem _ (List.mem_cons_of_mem _ h)

theorem max_element_from_ge (x : Int × Int) (l : List (Int × Int)) :
    ∀ p ∈ x :: l, p.2 ≤ (max_element_from compSecond x l).2 := by
  induction l generalizing x with
  | nil => simp [max_element_from]
  | cons y t ih =>
    intro p hp
    unfold max_element_from
    by_cases hc : compSecond x y = true
    · rw [if_pos hc]
      have hxy : x.2 < y.2 := by simpa [compSecond] using hc
      rcases List.mem_cons.1 hp with h | h
      · rw [h]
        exact le_trans (le_of_lt hxy) (ih y y (List.mem_cons_self _ _))
      · exact ih y p h
    · rw [if_neg hc]
      have hyx : y.2 ≤ x.2 := by simpa [compSecond] using hc
      rcases List.mem_cons.1 hp with h | h
      · rw [h]
        exact ih x x (List.mem_cons_self _ _)
      · rcases List.mem_cons.1 h with h2 | h2
        · rw [h2]
          exact le_trans hyx (ih x x (List.mem_cons_self _ _))
        · exact ih x p (List.mem_cons_of_mem _ h2)

theorem max_element_from_first (x : Int × Int) (l : List (Int × Int)) :
    ∃ pre post, x :: l = pre ++ max_element_from compSecond x l :: post ∧
      ∀ p ∈ pre, p.2 < (max_element_from compSecond x l).2 := by
  induction l generalizing x with
  | nil => exact ⟨[], [], by simp [max_element_from]⟩
  | cons y t ih =>
    unfold max_element_from
    by_cases hc : compSecond x y = true
    · rw [if_pos hc]
      have hxy : x.2 < y.2 := by simpa [compSecond] using hc
      obtain ⟨pre, post, he, hlt⟩ := ih y
      refine ⟨x :: pre, post, by rw [he]; rfl, ?_⟩
      intro p hp
      rcases List.mem_cons.1 hp with h | h
      · rw [h]
        exact lt_of_lt_of_le hxy (max_element_from_ge y t y (List.mem_cons_self _ _))
      · exact hlt p h
    · rw [if_neg hc]
      have hyx : y.2 ≤ x.2 := by simpa [compSecond] using hc
      obtain ⟨pre, post, he, hlt⟩ := ih x
      generalize max_element_from compSecond x t = m at he hlt
      cases pre with
      | nil =>
        simp only [List.nil_append, List.cons.injEq] at he
        refine ⟨[], y :: t, ?_, by simp⟩
        rw [← he.1]; rfl
      | cons z pre2 =>
        simp only [List.cons_append, List.cons.injEq] at he
        refine ⟨x :: y :: pre2, post, ?_, ?_⟩
        · rw [he.2]; rfl
        · intro p hp
          have hx : x.2 < m.2 := by
            have := hlt z (List.mem_cons_self _ _)
            rwa [← he.1] at this
          rcases List.mem_cons.1 hp with h | h
          · rw [h]; exact hx
          · rcases List.mem_cons.1 h with h2 | h2
            · rw [h2]; exact lt_of_le_of_lt hyx hx
            · exact hlt p (List.mem_cons_of_mem _ h2)

/-! ## Greedy choice and maximum of a row -/

theorem recorded_eq_cons (q : List (Int × List (Int × Int))) (state : Int)
    (h : recorded q state ≠ []) :
    ∃ first rest, IntMap.find q state = some (first :: rest) ∧
      recorded q state = first :: rest := by
  unfold recorded at h ⊢
  cases hf : IntMap.find q state with
  | none => simp [hf] at h
  | some row =>
    cases row with
    | nil => simp [hf] at h
    | cons first rest => exact ⟨first, rest, rfl, rfl⟩

theorem ne_nil_of_find {V : Type} (q : List (Int × V)) (state : Int) (row : V)
    (h : IntMap.find q state = some row) : q ≠ [] := by
  intro hq
  subst hq
  simp [IntMap.find] at h

theorem bestTransition_of_find (env : Environment) (q : List (Int × List (Int × Int)))
    (state : Int) (first : Int × Int) (rest : List (Int × Int))
    (h : IntMap.find q state = some (first :: rest)) :
    QLearningAgent.bestTransition env q state =
      (.ok ((max_element_from compSecond first rest).1,
        env.nextState state (max_element_from compSecond first rest).1), q) := by
  have hq : q ≠ [] := ne_nil_of_find q state _ h
  have he : q.isEmpty = false := by
    cases q with
    | nil => exact absurd rfl hq
    | cons a t => rfl
  simp [QLearningAgent.bestTransition, he, IntMap.access, h]

theorem maxQ_of_find (q : List (Int × List (Int × Int)))
    (state : Int) (first : Int × Int) (rest : List (Int × Int))
    (hs : state ≠ -1) (h : IntMap.find q state = some (first :: rest)) :
    QLearningAgent.maxQ q state = (((max_element_from compSecond first rest).2 : ℚ), q) := by
  simp [QLearningAgent.maxQ, hs, IntMap.access, h]

theorem maxQ_of_recorded_nil (q : List (Int × List (Int × Int))) (state : Int)
    (h : recorded q state = []) : (QLearningAgent.maxQ q state).1 = 0 := by
  unfold QLearningAgent.maxQ
  split_ifs with hs
  · rfl
  · unfold recorded at h
    cases hf : IntMap.find q state with
    | none => simp [IntMap.access, hf]
    | some row =>
      simp only [hf] at h
      subst h
      simp [IntMap.access, hf]

/-- C4. When the episode trace is empty, `stopSession` (a total function: it
has no error outcome) returns the agent it was given, so the Q-table keeps the
same rows, the same entries and the same values. -/
theorem stopSession_empty_trace (env : Environment) (ag : QLearningAgent) (reward : Int)
    (h : ag.m_actionHistory = []) :
    QLearningAgent.stopSession env ag reward = ag ∧
      (QLearningAgent.stopSession env ag reward).m_qTable = ag.m_qTable := by
  have he : QLearningAgent.stopSession env ag reward = ag := by
    simp [QLearningAgent.stopSession, QLearningAgent.updateQTable, h]
  exact ⟨he, by rw [he]⟩

/-- Witness of C4: an agent with a populated Q-table and an empty trace. -/
theorem stopSession_empty_trace_witness :
    (QLearningAgent.mk [(0, [(2, 10)]), (1, [])] [] (1/10) (7/10) (1/10)).m_actionHistory = [] ∧
    (QLearningAgent.stopSession ⟨[(0, [(2, 1)])]⟩
      (QLearningAgent.mk [(0, [(2, 10)]), (1, [])] [] (1/10) (7/10) (1/10)) 100).m_qTable
      = [(0, [(2, 10)]), (1, [])] :=
  ⟨rfl, (stopSession_empty_trace ⟨[(0, [(2, 1)])]⟩
    (QLearningAgent.mk [(0, [(2, 10)]), (1, [])] [] (1/10) (7/10) (1/10)) 100 rfl).2⟩

/-- C5. When `state` has at least one recorded action-value, `bestTransition`
returns `(a, Environment.nextState(state, a))` and leaves the table as it is,
where `a` is a recorded action of `state` whose value `v` is at least every
recorded value of `state`; among the actions recorded with that greatest value
`a` has the smallest id, and it is the first such entry in iteration order
(every entry before it has a strictly smaller value). -/
theorem bestTransition_greedy (env : Environment) (q : List (Int × List (Int × Int)))
    (state : Int) (hrec : recorded q state ≠ []) (hsorted : IntMap.Sorted (recorded q state)) :
    ∃ a v, QLearningAgent.bestTransition env q state = (.ok (a, env.nextState state a), q) ∧
      IntMap.find (recorded q state) a = some v ∧
      (∀ a' v', IntMap.find (recorded q state) a' = some v' → v' ≤ v) ∧
      (∀ a', IntMap.find (recorded q state) a' = some v → a ≤ a') ∧
      (∃ pre post, recorded q state = pre ++ (a, v) :: post ∧ ∀ p ∈ pre, p.2 < v) := by
  obtain ⟨first, rest, hf, hr⟩ := recorded_eq_cons q state hrec
  rw [hr] at hsorted ⊢
  have hmem := max_element_from_mem compSecond first rest
  have hge := max_element_from_ge first rest
  obtain ⟨pre, post, he, hlt⟩ := max_element_from_first first rest
  have hbest := bestTransition_of_find env q state first rest hf
  generalize max_element_from compSecond first rest = m at hmem hge he hlt hbest
  obtain ⟨a, v⟩ := m
  refine ⟨a, v, hbest, IntMap.find_of_mem_sorted _ a v hsorted hmem, ?_, ?_, pre, post, he, hlt⟩
  · intro a' v' h'
    exact hge (a', v') (IntMap.mem_of_find _ a' v' h')
  · intro a' h'
    have hm : (a', v) ∈ pre ++ (a, v) :: post := by
      rw [← he]
      exact IntMap.mem_of_find _ a' v h'
    rw [he] at hsorted
    unfold IntMap.Sorted at hsorted
    rcases List.mem_append.1 hm with h1 | h1
    · exact absurd (hlt (a', v) h1) (lt_irrefl v)
    · rcases List.mem_cons.1 h1 with h2 | h2
      · exact le_of_eq (congrArg Prod.fst h2).symm
      · have hp := (List.pairwise_cons.1 (List.pairwise_append.1 hsorted).2.1).1
        exact le_of_lt (hp (a', v) h2)

/-- Witness of C5: the row `{1: 1, 2: 5, 3: 2}` of the spec's example. -/
theorem bestTransition_greedy_witness :
    recorded [(0, [(1, 1), (2, 5), (3, 2)])] 0 ≠ [] ∧
    IntMap.Sorted (recorded [(0, [(1, 1), (2, 5), (3, 2)])] 0) ∧
    ∃ a v, QLearningAgent.bestTransition ⟨[(0, [(2, 7)])]⟩ [(0, [(1, 1), (2, 5), (3, 2)])] 0
        = (.ok (a, Environment.nextState ⟨[(0, [(2, 7)])]⟩ 0 a), [(0, [(1, 1), (2, 5), (3, 2)])]) ∧
      IntMap.find (recorded [(0, [(1, 1), (2, 5), (3, 2)])] 0) a = some v ∧
      (∀ a' v', IntMap.find (recorded [(0, [(1, 1), (2, 5), (3, 2)])] 0) a' = some v' → v' ≤ v) ∧
      (∀ a', IntMap.find (recorded [(0, [(1, 1), (2, 5), (3, 2)])] 0) a' = some v → a ≤ a') ∧
      (∃ pre post, recorded [(0, [(1, 1), (2, 5), (3, 2)])] 0 = pre ++ (a, v) :: post ∧
        ∀ p ∈ pre, p.2 < v) :=
  ⟨by decide, by simp [recorded, IntMap.find, IntMap.Sorted],
    bestTransition_greedy ⟨[(0, [(2, 7)])]⟩ [(0, [(1, 1), (2, 5), (3, 2)])] 0 (by decide)
      (by simp [recorded, IntMap.find, IntMap.Sorted])⟩

/-- The spec's example of greedy choice: with the row `{1: 1, 2: 5, 3: 2}`
the action `2` is selected, and with a tie the smaller action id wins. -/
theorem bestTransition_example :
    (QLearningAgent.bestTransition ⟨[(0, [(2, 7)])]⟩ [(0, [(1, 1), (2, 5), (3, 2)])] 0).1
      = .ok (2, 7) ∧
    (QLearningAgent.bestTransition ⟨[(0, [(2, 7)])]⟩ [(0, [(1, 1), (2, 5), (3, 5)])] 0).1
      = .ok (2, 7) := by
  constructor <;> rfl

/-- C9. `maxQ(state)` returns 0 when `state` is the sentinel `-1` or has no
recorded action-value; otherwise it returns a recorded value of `state` that
is at least every recorded value of `state`, so that a state whose recorded
values are all negative yields a negative result. -/
theorem maxQ_spec (q : List (Int × List (Int × Int))) (state : Int) :
    ((state = -1 ∨ recorded q state = []) → (QLearningAgent.maxQ q state).1 = 0) ∧
    (state ≠ -1 → recorded q state ≠ [] →
      (∃ p ∈ recorded q state, (QLearningAgent.maxQ q state).1 = (p.2 : ℚ)) ∧
      (∀ p ∈ recorded q state, (p.2 : ℚ) ≤ (QLearningAgent.maxQ q state).1) ∧
      ((∀ p ∈ recorded q state, p.2 < 0) → (QLearningAgent.maxQ q state).1 < 0)) := by
  constructor
  · rintro (h | h)
    · simp [QLearningAgent.maxQ, h]
    · exact maxQ_of_recorded_nil q state h
  · intro hs hrec
    obtain ⟨first, rest, hf, hr⟩ := recorded_eq_cons q state hrec
    rw [hr, maxQ_of_find q state first rest hs hf]
    have hmem := max_element_from_mem compSecond first rest
    have hge := max_element_from_ge first rest
    refine ⟨⟨_, hmem, rfl⟩, ?_, ?_⟩
    · intro p hp
      show (p.2 : ℚ) ≤ ((max_element_from compSecond first rest).2 : ℚ)
      exact_mod_cast hge p hp
    · intro hneg
      show ((max_element_from compSecond first rest).2 : ℚ) < 0
      exact_mod_cast hneg _ hmem

/-- Witness of C9: the sentinel gives 0, and a row whose values are all
negative gives a negative maximum. -/
theorem maxQ_spec_witness :
    (QLearningAgent.maxQ [(0, [(1, -5), (2, -3)])] (-1)).1 = 0 ∧
    (QLearningAgent.maxQ [(0, [(1, -5), (2, -3)])] 7).1 = 0 ∧
    ((0 : Int) ≠ -1 ∧ recorded [(0, [(1, -5), (2, -3)])] 0 ≠ [] ∧
      (∀ p ∈ recorded [(0, [(1, -5), (2, -3)])] 0, p.2 < 0) ∧
      (QLearningAgent.maxQ [(0, [(1, -5), (2, -3)])] 0).1 < 0) :=
  ⟨(maxQ_spec [(0, [(1, -5), (2, -3)])] (-1)).1 (Or.inl rfl),
    (maxQ_spec [(0, [(1, -5), (2, -3)])] 7).1 (Or.inr (by decide)),
    by decide, by decide, by decide,
    ((maxQ_spec [(0, [(1, -5), (2, -3)])] 0).2 (by decide) (by decide)).2.2 (by decide)⟩

/-- The maximum of the row `{1: -5, 2: -3}` is `-3`. -/
theorem maxQ_example : (QLearningAgent.maxQ [(0, [(1, -5), (2, -3)])] 0).1 = -3 := by
  simp [QLearningAgent.maxQ, IntMap.access, IntMap.find, max_element_from, compSecond]

/-! ## Recording an entry and the maximum of its row -/

theorem access_fst_eq_recorded (q : List (Int × List (Int × Int))) (state : Int) :
    (IntMap.access q state []).1 = recorded q state := by
  unfold IntMap.access recorded
  cases IntMap.find q state <;> rfl

theorem find_assign2_self (q : List (Int × List (Int × Int))) (state action v : Int) :
    IntMap.find (IntMap.assign2 q state action v) state =
      some (IntMap.insert (recorded q state) action v) := by
  unfold IntMap.assign2
  rw [← access_fst_eq_recorded]
  exact IntMap.find_insert_self _ _ _

theorem max_element_from_snd_eq (first : Int × Int) (rest : List (Int × Int)) (M : Int)
    (hex : ∃ p ∈ first :: rest, p.2 = M) (hle : ∀ p ∈ first :: rest, p.2 ≤ M) :
    (max_element_from compSecond first rest).2 = M := by
  obtain ⟨p, hp, hpM⟩ := hex
  apply le_antisymm
  · exact hle _ (max_element_from_mem compSecond first rest)
  · rw [← hpM]
    exact max_element_from_ge first rest p hp

/-- The claim C10 fails: with the single recorded value `-5` for state `0`,
action `2` has no entry, `maxQ(0)` is `-5`, and after recording the value `0`
for `(0, 2)` it is `0`. -/
theorem maxQ_record_zero_counterexample :
    IntMap.find (recorded [(0, [(1, -5)])] 0) 2 = none ∧
    (QLearningAgent.maxQ [(0, [(1, -5)])] 0).1 = -5 ∧
    (QLearningAgent.maxQ (IntMap.assign2 [(0, [(1, -5)])] 0 2 0) 0).1 = 0 ∧
    (QLearningAgent.maxQ (IntMap.assign2 [(0, [(1, -5)])] 0 2 0) 0).1
      ≠ (QLearningAgent.maxQ [(0, [(1, -5)])] 0).1 := by
  have h1 : (QLearningAgent.maxQ [(0, [(1, -5)])] 0).1 = -5 := by
    simp [QLearningAgent.maxQ, IntMap.access, IntMap.find, max_element_from]
  have h2 : (QLearningAgent.maxQ (IntMap.assign2 [(0, [(1, -5)])] 0 2 0) 0).1 = 0 := by
    simp [QLearningAgent.maxQ, IntMap.assign2, IntMap.access, IntMap.find, IntMap.insert,
      max_element_from, compSecond]
  refine ⟨by decide, h1, h2, ?_⟩
  rw [h1, h2]
  norm_num

/-- C10 as amended. When action `a` has no entry under state `s`, recording
the value 0 for `(s, a)` changes `maxQ(s)` to the greater of its former value
and 0: it is unchanged exactly when it was non-negative. -/
theorem maxQ_record_zero (q : List (Int × List (Int × Int))) (s a : Int)
    (habs : IntMap.find (recorded q s) a = none) :
    (QLearningAgent.maxQ (IntMap.assign2 q s a 0) s).1 = max (QLearningAgent.maxQ q s).1 0 ∧
    ((QLearningAgent.maxQ (IntMap.assign2 q s a 0) s).1 = (QLearningAgent.maxQ q s).1 ↔
      0 ≤ (QLearningAgent.maxQ q s).1) := by
  have key : (QLearningAgent.maxQ (IntMap.assign2 q s a 0) s).1
      = max (QLearningAgent.maxQ q s).1 0 := by
    by_cases hs : s = -1
    · simp [QLearningAgent.maxQ, hs]
    · have hfind := find_assign2_self q s a 0
      have hmemiff := IntMap.mem_insert_of_find_none (recorded q s) a 0 habs
      cases hins : IntMap.insert (recorded q s) a 0 with
      | nil =>
        have : (a, (0 : Int)) ∈ IntMap.insert (recorded q s) a 0 := (hmemiff _).2 (Or.inl rfl)
        rw [hins] at this
        simp at this
      | cons f r =>
        rw [hins] at hfind hmemiff
        rw [maxQ_of_find _ s f r hs hfind]
        by_cases hrec : recorded q s = []
        · rw [maxQ_of_recorded_nil q s hrec]
          have hM : (max_element_from compSecond f r).2 = 0 := by
            apply max_element_from_snd_eq
            · exact ⟨(a, 0), (hmemiff _).2 (Or.inl rfl), rfl⟩
            · intro p hp
              rcases (hmemiff p).1 hp with h | h
              · rw [h]
              · rw [hrec] at h
                simp at h
          show ((max_element_from compSecond f r).2 : ℚ) = max 0 0
          rw [hM]
          simp
        · obtain ⟨first, rest, hf, hr⟩ := recorded_eq_cons q s hrec
          rw [maxQ_of_find q s first rest hs hf]
          have hmem := max_element_from_mem compSecond first rest
          have hge := max_element_from_ge first rest
          rw [hr] at hmemiff
          have hM : (max_element_from compSecond f r).2
              = max (max_element_from compSecond first rest).2 0 := by
            apply max_element_from_snd_eq
            · rcases le_total (max_element_from compSecond first rest).2 0 with h | h
              · exact ⟨(a, 0), (hmemiff _).2 (Or.inl rfl), by rw [max_eq_right h]⟩
              · exact ⟨_, (hmemiff _).2 (Or.inr hmem), by rw [max_eq_left h]⟩
            · intro p hp
              rcases (hmemiff p).1 hp with h | h
              · rw [h]
                exact le_max_right _ _
              · exact le_trans (hge p h) (le_max_left _ _)
          show ((max_element_from compSecond f r).2 : ℚ)
            = max ((max_element_from compSecond first rest).2 : ℚ) 0
          rw [hM]
          push_cast
          rfl
  refine ⟨key, ?_⟩
  rw [key]
  exact max_eq_left_iff

/-- Witness of the amended C10: a row with a non-negative value, where
recording 0 for a new action leaves `maxQ` at 4. -/
theorem maxQ_record_zero_witness :
    IntMap.find (recorded [(0, [(1, -5), (3, 4)])] 0) 2 = none ∧
    (QLearningAgent.maxQ (IntMap.assign2 [(0, [(1, -5), (3, 4)])] 0 2 0) 0).1
      = max (QLearningAgent.maxQ [(0, [(1, -5), (3, 4)])] 0).1 0 :=
  ⟨by decide, (maxQ_record_zero [(0, [(1, -5), (3, 4)])] 0 2 (by decide)).1⟩

/-! ## The policy `chooseTransition` -/

theorem randomTransition_cases (env : Environment) (state : Int) (r : Nat) :
    (env.availableActions state = [] ∧
      env.randomTransition state r = .error Error.noAvailableActions) ∨
    (env.availableActions state ≠ [] ∧ ∃ t, env.randomTransition state r = .ok t) := by
  unfold Environment.randomTransition
  by_cases h : (env.availableActions state).length = 0
  · left
    exact ⟨List.length_eq_zero.1 h, by simp [h]⟩
  · right
    refine ⟨fun e => h (by rw [e]; rfl), ?_⟩
    simp [h]

theorem isEmpty_eq_false_of_ne_nil {A : Type} (l : List A) (h : l ≠ []) :
    l.isEmpty = false := by
  cases l with
  | nil => exact absurd rfl h
  | cons a t => rfl

theorem access_snd_of_recorded_ne_nil (q : List (Int × List (Int × Int))) (state : Int)
    (h : recorded q state ≠ []) : (IntMap.access q state []).2 = q := by
  obtain ⟨first, rest, hf, _⟩ := recorded_eq_cons q state h
  simp [IntMap.access, hf]

theorem chooseTransition_explore (env : Environment) (RAND_MAX : Nat) (ag : QLearningAgent)
    (state : Int) (r1 r2 : Nat)
    (h : ag.m_qTable = [] ∨ recorded ag.m_qTable state = [] ∨
      (r1 : ℚ) / (RAND_MAX : ℚ) < ag.m_epsilon) :
    (QLearningAgent.chooseTransition env RAND_MAX ag state r1 r2).1
      = env.randomTransition state r2 := by
  unfold QLearningAgent.chooseTransition
  by_cases hq : ag.m_qTable = []
  · simp [hq]
  · rw [isEmpty_eq_false_of_ne_nil _ hq]
    simp only [Bool.false_eq_true, if_false]
    have hrow := access_fst_eq_recorded ag.m_qTable state
    by_cases hrec : recorded ag.m_qTable state = []
    · rw [hrec] at hrow
      simp [hrow]
    · rcases h with h | h | h
      · exact absurd h hq
      · exact absurd h hrec
      · split_ifs <;> rfl

theorem chooseTransition_exploit (env : Environment) (RAND_MAX : Nat) (ag : QLearningAgent)
    (state : Int) (r1 r2 : Nat)
    (h : ¬ (ag.m_qTable = [] ∨ recorded ag.m_qTable state = [] ∨
      (r1 : ℚ) / (RAND_MAX : ℚ) < ag.m_epsilon)) :
    (QLearningAgent.chooseTransition env RAND_MAX ag state r1 r2).1
      = (QLearningAgent.bestTransition env ag.m_qTable state).1 := by
  have hq : ag.m_qTable ≠ [] := fun e => h (Or.inl e)
  have hrec : recorded ag.m_qTable state ≠ [] := fun e => h (Or.inr (Or.inl e))
  have heps : ¬ (r1 : ℚ) / (RAND_MAX : ℚ) < ag.m_epsilon := fun e => h (Or.inr (Or.inr e))
  unfold QLearningAgent.chooseTransition
  rw [isEmpty_eq_false_of_ne_nil _ hq]
  simp only [Bool.false_eq_true, if_false]
  have hrow := access_fst_eq_recorded ag.m_qTable state
  have hsnd := access_snd_of_recorded_ne_nil ag.m_qTable state hrec
  have hne : (IntMap.access ag.m_qTable state []).1.isEmpty = false := by
    rw [hrow]
    exact isEmpty_eq_false_of_ne_nil _ hrec
  simp only [hne, Bool.false_eq_true, if_false, heps, hsnd]

/-- C6. `chooseTransition(state)` returns the result of
`Environment.randomTransition(state)` when the Q-table has no rows, or `state`
has no recorded action-value, or the drawn number `rand() / RAND_MAX` is less
than ε; in every other case it returns the result of `bestTransition(state)`.
In particular with ε = 0 and a state with recorded values it returns the
result of `bestTransition(state)` for every outcome of `rand()`. -/
theorem chooseTransition_policy (env : Environment) (RAND_MAX : Nat) (ag : QLearningAgent)
    (state : Int) (r1 r2 : Nat) :
    ((ag.m_qTable = [] ∨ recorded ag.m_qTable state = [] ∨
        (r1 : ℚ) / (RAND_MAX : ℚ) < ag.m_epsilon) →
      (QLearningAgent.chooseTransition env RAND_MAX ag state r1 r2).1
        = env.randomTransition state r2) ∧
    (¬ (ag.m_qTable = [] ∨ recorded ag.m_qTable state = [] ∨
        (r1 : ℚ) / (RAND_MAX : ℚ) < ag.m_epsilon) →
      (QLearningAgent.chooseTransition env RAND_MAX ag state r1 r2).1
        = (QLearningAgent.bestTransition env ag.m_qTable state).1) ∧
    (ag.m_epsilon = 0 → recorded ag.m_qTable state ≠ [] →
      (QLearningAgent.chooseTransition env RAND_MAX ag state r1 r2).1
        = (QLearningAgent.bestTransition env ag.m_qTable state).1) := by
  refine ⟨chooseTransition_explore env RAND_MAX ag state r1 r2,
    chooseTransition_exploit env RAND_MAX ag state r1 r2, ?_⟩
  intro heps hrec
  apply chooseTransition_exploit
  rintro (h | h | h)
  · rw [h] at hrec
    exact hrec rfl
  · exact hrec h
  · rw [heps] at h
    have h0 : (0 : ℚ) ≤ (r1 : ℚ) / (RAND_MAX : ℚ) :=
      div_nonneg (Nat.cast_nonneg r1) (Nat.cast_nonneg RAND_MAX)
    exact absurd h (not_lt.2 h0)

/-- Witness of C6: with ε = 0 and the row `{1: 5}` recorded for state `0` the
greedy result is returned; with an empty Q-table the random one is. -/
theorem chooseTransition_policy_witness :
    ((QLearningAgent.mk [(0, [(1, 5)])] [] (1/10) (7/10) 0).m_epsilon = 0 ∧
      recorded (QLearningAgent.mk [(0, [(1, 5)])] [] (1/10) (7/10) 0).m_qTable 0 ≠ [] ∧
      (QLearningAgent.chooseTransition ⟨[(0, [(1, 3), (2, 1)])]⟩ 32767
          (QLearningAgent.mk [(0, [(1, 5)])] [] (1/10) (7/10) 0) 0 0 1).1
        = (QLearningAgent.bestTransition ⟨[(0, [(1, 3), (2, 1)])]⟩
          (QLearningAgent.mk [(0, [(1, 5)])] [] (1/10) (7/10) 0).m_qTable 0).1) ∧
    ((QLearningAgent.mk [] [] (1/10) (7/10) 0).m_qTable = [] ∧
      (QLearningAgent.chooseTransition ⟨[(0, [(1, 3), (2, 1)])]⟩ 32767
          (QLearningAgent.mk [] [] (1/10) (7/10) 0) 0 0 1).1
        = Environment.randomTransition ⟨[(0, [(1, 3), (2, 1)])]⟩ 0 1) :=
  ⟨⟨rfl, by decide,
    (chooseTransition_policy ⟨[(0, [(1, 3), (2, 1)])]⟩ 32767
      (QLearningAgent.mk [(0, [(1, 5)])] [] (1/10) (7/10) 0) 0 0 1).2.2 rfl (by decide)⟩,
   ⟨rfl,
    (chooseTransition_policy ⟨[(0, [(1, 3), (2, 1)])]⟩ 32767
      (QLearningAgent.mk [] [] (1/10) (7/10) 0) 0 0 1).1 (Or.inl rfl)⟩⟩

/-- C7. `chooseTransition(state)` does not fail when `state` has at least one
configured action; with an empty Q-table it returns the result of
`randomTransition(state)`; and for every state, configured or not, its outcome
is neither the "Q-Table is empty!" nor the "No record for the state" error of
`bestTransition`. -/
theorem chooseTransition_no_failure (env : Environment) (RAND_MAX : Nat)
    (ag : QLearningAgent) (state : Int) (r1 r2 : Nat) :
    (env.availableActions state ≠ [] →
      ∃ t, (QLearningAgent.chooseTransition env RAND_MAX ag state r1 r2).1 = .ok t) ∧
    (ag.m_qTable = [] →
      (QLearningAgent.chooseTransition env RAND_MAX ag state r1 r2).1
        = env.randomTransition state r2) ∧
    (QLearningAgent.chooseTransition env RAND_MAX ag state r1 r2).1
      ≠ .error Error.qTableEmpty ∧
    (QLearningAgent.chooseTransition env RAND_MAX ag state r1 r2).1
      ≠ .error Error.noRecord := by
  have hexploit : ¬ (ag.m_qTable = [] ∨ recorded ag.m_qTable state = [] ∨
        (r1 : ℚ) / (RAND_MAX : ℚ) < ag.m_epsilon) →
      ∃ t, (QLearningAgent.chooseTransition env RAND_MAX ag state r1 r2).1 = .ok t := by
    intro h
    rw [chooseTransition_exploit env RAND_MAX ag state r1 r2 h]
    have hrec : recorded ag.m_qTable state ≠ [] := fun e => h (Or.inr (Or.inl e))
    obtain ⟨first, rest, hf, _⟩ := recorded_eq_cons _ _ hrec
    rw [bestTransition_of_find env _ state first rest hf]
    exact ⟨_, rfl⟩
  by_cases h : ag.m_qTable = [] ∨ recorded ag.m_qTable state = [] ∨
        (r1 : ℚ) / (RAND_MAX : ℚ) < ag.m_epsilon
  · have he := chooseTransition_explore env RAND_MAX ag state r1 r2 h
    rw [he]
    rcases randomTransition_cases env state r2 with ⟨h0, hr⟩ | ⟨_, t, hr⟩
    · refine ⟨fun ha => absurd h0 ha, fun _ => rfl, ?_, ?_⟩ <;> rw [hr] <;> simp
    · refine ⟨fun _ => ⟨t, hr⟩, fun _ => rfl, ?_, ?_⟩ <;> rw [hr] <;> simp
  · obtain ⟨t, ht⟩ := hexploit h
    refine ⟨fun _ => ⟨t, ht⟩, fun hq => absurd (Or.inl hq) h, ?_, ?_⟩ <;> rw [ht] <;> simp

/-- Witness of C7: an empty Q-table and a state with two configured actions. -/
theorem chooseTransition_no_failure_witness :
    Environment.availableActions ⟨[(0, [(1, 3), (2, 1)])]⟩ 0 ≠ [] ∧
    (QLearningAgent.mk [] [] (1/10) (7/10) (1/10)).m_qTable = [] ∧
    (∃ t, (QLearningAgent.chooseTransition ⟨[(0, [(1, 3), (2, 1)])]⟩ 32767
      (QLearningAgent.mk [] [] (1/10) (7/10) (1/10)) 0 5 1).1 = .ok t) ∧
    (QLearningAgent.chooseTransition ⟨[(0, [(1, 3), (2, 1)])]⟩ 32767
      (QLearningAgent.mk [] [] (1/10) (7/10) (1/10)) 0 5 1).1
        = Environment.randomTransition ⟨[(0, [(1, 3), (2, 1)])]⟩ 0 1 :=
  ⟨by decide, rfl,
    (chooseTransition_no_failure ⟨[(0, [(1, 3), (2, 1)])]⟩ 32767
      (QLearningAgent.mk [] [] (1/10) (7/10) (1/10)) 0 5 1).1 (by decide),
    (chooseTransition_no_failure ⟨[(0, [(1, 3), (2, 1)])]⟩ 32767
      (QLearningAgent.mk [] [] (1/10) (7/10) (1/10)) 0 5 1).2.1 rfl⟩

/-- The outcome `RAND_MAX` of `rand()` makes the number compared with ε equal
to 1: with ε = 1 and recorded values for the state, `chooseTransition` then
returns the greedy transition `(1, 3)` of `bestTransition`, not the transition
`(2, 1)` that `randomTransition` yields for the same `rand()` outcome. (C8) -/
theorem chooseTransition_epsilon_one_exploits :
    ((2147483647 : Nat) : ℚ) / ((2147483647 : Nat) : ℚ) = 1 ∧
    (QLearningAgent.chooseTransition ⟨[(0, [(1, 3), (2, 1)])]⟩ 2147483647
      (QLearningAgent.mk [(0, [(1, 5)])] [] (1/10) (7/10) 1) 0 2147483647 1).1 = .ok (1, 3) ∧
    (QLearningAgent.bestTransition ⟨[(0, [(1, 3), (2, 1)])]⟩ [(0, [(1, 5)])] 0).1
      = .ok (1, 3) ∧
    Environment.randomTransition ⟨[(0, [(1, 3), (2, 1)])]⟩ 0 1 = .ok (2, 1) := by
  have hbest : (QLearningAgent.bestTransition ⟨[(0, [(1, 3), (2, 1)])]⟩
      [(0, [(1, 5)])] 0).1 = .ok (1, 3) := rfl
  refine ⟨by norm_num, ?_, hbest, rfl⟩
  rw [chooseTransition_exploit, hbest]
  norm_num [recorded, IntMap.find]

/-- The number compared with ε lies in the closed interval from 0 to 1, and
it is 1 exactly when `rand()` returns `RAND_MAX`. -/
theorem drawn_number_range (RAND_MAX r : Nat) (hpos : 0 < RAND_MAX) (hr : r ≤ RAND_MAX) :
    0 ≤ (r : ℚ) / (RAND_MAX : ℚ) ∧ (r : ℚ) / (RAND_MAX : ℚ) ≤ 1 ∧
    ((r : ℚ) / (RAND_MAX : ℚ) = 1 ↔ r = RAND_MAX) := by
  have hp : (0 : ℚ) < (RAND_MAX : ℚ) := by exact_mod_cast hpos
  refine ⟨div_nonneg (Nat.cast_nonneg r) (le_of_lt hp), ?_, ?_⟩
  · rw [div_le_one hp]
    exact_mod_cast hr
  · rw [div_eq_one_iff_eq (ne_of_gt hp)]
    exact_mod_cast Iff.rfl

/-! ## The update pass -/

theorem truncToInt_eq_iff (x : ℚ) (z : Int) :
    truncToInt x = z ↔
      (0 ≤ x ∧ (z : ℚ) ≤ x ∧ x < z + 1) ∨ (x < 0 ∧ (z : ℚ) - 1 < x ∧ x ≤ z) := by
  unfold truncToInt
  split_ifs with h
  · rw [Int.floor_eq_iff]
    constructor
    · intro h1
      exact Or.inl ⟨h, h1⟩
    · rintro (h1 | h1)
      · exact h1.2
      · exact absurd h (not_le.2 h1.1)
  · rw [Int.ceil_eq_iff]
    constructor
    · intro h1
      exact Or.inr ⟨not_le.1 h, h1⟩
    · rintro (h1 | h1)
      · exact absurd h1.1 h
      · exact h1.2

theorem truncToInt_intCast (z : Int) : truncToInt (z : ℚ) = z := by
  rw [truncToInt_eq_iff]
  rcases le_or_lt 0 z with h | h
  · left
    refine ⟨by exact_mod_cast h, le_refl _, by linarith⟩
  · right
    refine ⟨by exact_mod_cast h, by linarith, le_refl _⟩

/-- The stored Q-value is truncated: with α = 1/2 and terminal reward 1 the
single-step trace `[(0, 2)]` from an empty Q-table leaves `Q[0][2] = 0` in the
program, where the backward pass of the specification leaves `1/2`. (C1) -/
theorem updateQTable_differs_from_specBackwardPass :
    (QLearningAgent.stopSession ⟨[(0, [(2, 1)])]⟩
      (QLearningAgent.mk [] [(0, 2)] (1/2) (1/2) 0) 1).m_qTable = [(0, [(2, 0)]), (1, [])] ∧
    specBackwardPass ⟨[(0, [(2, 1)])]⟩ (1/2) (1/2) [(0, 2)] [] 1 = [(0, [(2, 1/2)])] ∧
    qValue (QLearningAgent.stopSession ⟨[(0, [(2, 1)])]⟩
      (QLearningAgent.mk [] [(0, 2)] (1/2) (1/2) 0) 1).m_qTable 0 2 = 0 ∧
    specQ (specBackwardPass ⟨[(0, [(2, 1)])]⟩ (1/2) (1/2) [(0, 2)] [] 1) 0 2 = 1/2 := by
  have ht : truncToInt (1/2) = 0 := by
    rw [truncToInt_eq_iff]
    norm_num
  have h1 : (QLearningAgent.stopSession ⟨[(0, [(2, 1)])]⟩
      (QLearningAgent.mk [] [(0, 2)] (1/2) (1/2) 0) 1).m_qTable
        = [(0, [(2, 0)]), (1, [])] := by
    simp [QLearningAgent.stopSession, QLearningAgent.updateQTable, QLearningAgent.updateLoop,
      QLearningAgent.updateStep, QLearningAgent.maxQ, IntMap.access, IntMap.find,
      IntMap.insert, IntMap.read2, IntMap.assign2, Environment.nextState]
    norm_num [ht]
  have h2 : specBackwardPass ⟨[(0, [(2, 1)])]⟩ (1/2) (1/2) [(0, 2)] [] 1
      = [(0, [(2, 1/2)])] := by
    simp [specBackwardPass, specStep, specQ, specMaxQ, IntMap.access, IntMap.find,
      IntMap.insert, IntMap.assign2, Environment.nextState]
  refine ⟨h1, h2, ?_, ?_⟩
  · rw [h1]
    simp [qValue, recorded, IntMap.find]
  · rw [h2]
    simp [specQ, IntMap.find]

/-- A single-step trace from an empty Q-table, in the exact arithmetic of the
model: for every environment and every γ the only pair recorded for `s` is
that of `a`, and the value is `α·R` truncated toward zero. This is the value
the program stores where the product `α·R` is exact in `double` and in the
range of `int`. -/
theorem stopSession_single_step (env : Environment) (s a R : Int) (alpha gamma epsilon : ℚ) :
    recorded (QLearningAgent.stopSession env
      (QLearningAgent.mk [] [(s, a)] alpha gamma epsilon) R).m_qTable s
      = [(a, truncToInt (alpha * (R : ℚ)))] := by
  have hstep : ∃ q2, IntMap.find q2 s = some [(a, 0)] ∧
      QLearningAgent.updateStep env alpha gamma ([], (R : ℚ)) (s, a)
        = (IntMap.assign2 q2 s a (truncToInt (alpha * (R : ℚ))), alpha * (R : ℚ)) := by
    by_cases hn : env.nextState s a = -1
    · refine ⟨[(s, [(a, 0)])], by simp [IntMap.find], ?_⟩
      simp [QLearningAgent.updateStep, QLearningAgent.maxQ, hn, IntMap.read2, IntMap.access,
        IntMap.find, IntMap.insert]
    · by_cases hs : s = env.nextState s a
      · refine ⟨[(s, [(a, 0)])], by simp [IntMap.find], ?_⟩
        simp [QLearningAgent.updateStep, QLearningAgent.maxQ, hn, ← hs, IntMap.read2, IntMap.access,
          IntMap.find, IntMap.insert, max_element_from]
      · refine ⟨IntMap.insert [(s, [(a, 0)])] (env.nextState s a) [], ?_, ?_⟩
        · rw [IntMap.find_insert_ne _ _ _ _ hs]
          simp [IntMap.find]
        · have hf : IntMap.find [(s, [(a, (0 : Int))])] (env.nextState s a) = none := by
            simp [IntMap.find, hs]
          simp [QLearningAgent.updateStep, QLearningAgent.maxQ, hn, IntMap.read2, IntMap.access,
            IntMap.find, IntMap.insert, hf]
  obtain ⟨q2, hq2, hst⟩ := hstep
  have : (QLearningAgent.stopSession env
      (QLearningAgent.mk [] [(s, a)] alpha gamma epsilon) R).m_qTable
      = IntMap.assign2 q2 s a (truncToInt (alpha * (R : ℚ))) := by
    simp [QLearningAgent.stopSession, QLearningAgent.updateQTable, QLearningAgent.updateLoop, hst]
  rw [this]
  unfold recorded
  rw [find_assign2_self]
  simp [recorded, hq2, IntMap.insert]

/-- With α = 1/4 and terminal reward 3 the single-step trace `[(0, 2)]` from
an empty Q-table leaves `Q[0][2] = 0`, not `α·R = 3/4`; in the specification's
case (α = 0.1, γ = 0.7, R = 100) the value left is 10. (C2) -/
theorem stopSession_single_step_truncates :
    qValue (QLearningAgent.stopSession ⟨[(0, [(2, 1)])]⟩
      (QLearningAgent.mk [] [(0, 2)] (1/4) (1/2) 0) 3).m_qTable 0 2 = 0 ∧
    (1/4 : ℚ) * ((3 : Int) : ℚ) = 3/4 ∧
    qValue (QLearningAgent.stopSession ⟨[(0, [(2, 1)])]⟩
      (QLearningAgent.mk [] [(0, 2)] (1/10) (7/10) (1/10)) 100).m_qTable 0 2 = 10 := by
  have ht1 : truncToInt ((1/4 : ℚ) * ((3 : Int) : ℚ)) = 0 := by
    rw [truncToInt_eq_iff]
    norm_num
  have ht2 : truncToInt ((1/10 : ℚ) * ((100 : Int) : ℚ)) = 10 := by
    rw [truncToInt_eq_iff]
    norm_num
  refine ⟨?_, by norm_num, ?_⟩
  · unfold qValue
    rw [stopSession_single_step, ht1]
    simp [IntMap.find]
  · unfold qValue
    rw [stopSession_single_step, ht2]
    simp [IntMap.find]

/-- The two-step case of the specification, trace `[(0, RIGHT), (1, DOWN)]`
with α = 0.1, γ = 0.7 and terminal reward −100 on the transitions of states 0
and 1 of the demonstration grid, from an empty Q-table: the program leaves
`Q[1][DOWN] = −10` and `Q[0][RIGHT] = −1`, where `α·(1+γ)·α·R = −1.7`. (C3) -/
theorem stopSession_two_step_truncates :
    (QLearningAgent.stopSession ⟨[(0, [(1, 3), (2, 1)]), (1, [(1, 4), (2, 2), (3, 0)])]⟩
      (QLearningAgent.mk [] [(0, 2), (1, 1)] (1/10) (7/10) (1/10)) (-100)).m_qTable
      = [(0, [(2, -1)]), (1, [(1, -10)]), (4, [])] ∧
    qValue (QLearningAgent.stopSession
      ⟨[(0, [(1, 3), (2, 1)]), (1, [(1, 4), (2, 2), (3, 0)])]⟩
      (QLearningAgent.mk [] [(0, 2), (1, 1)] (1/10) (7/10) (1/10)) (-100)).m_qTable 1 1
      = -10 ∧
    qValue (QLearningAgent.stopSession
      ⟨[(0, [(1, 3), (2, 1)]), (1, [(1, 4), (2, 2), (3, 0)])]⟩
      (QLearningAgent.mk [] [(0, 2), (1, 1)] (1/10) (7/10) (1/10)) (-100)).m_qTable 0 2
      = -1 ∧
    (1/10 : ℚ) * (1 + 7/10) * ((1/10) * ((-100 : Int) : ℚ)) = -17/10 := by
  have ht1 : truncToInt (-10) = -10 := by
    rw [truncToInt_eq_iff]
    norm_num
  have ht2 : truncToInt (-(17/10)) = -1 := by
    rw [truncToInt_eq_iff]
    norm_num
  have h : (QLearningAgent.stopSession
      ⟨[(0, [(1, 3), (2, 1)]), (1, [(1, 4), (2, 2), (3, 0)])]⟩
      (QLearningAgent.mk [] [(0, 2), (1, 1)] (1/10) (7/10) (1/10)) (-100)).m_qTable
      = [(0, [(2, -1)]), (1, [(1, -10)]), (4, [])] := by
    simp [QLearningAgent.stopSession, QLearningAgent.updateQTable, QLearningAgent.updateLoop,
      QLearningAgent.updateStep, QLearningAgent.maxQ, IntMap.access, IntMap.find,
      IntMap.insert, IntMap.read2, IntMap.assign2, Environment.nextState, max_element_from,
      compSecond]
    norm_num [ht1, ht2]
  refine ⟨h, ?_, ?_, by norm_num⟩
  · rw [h]
    simp [qValue, recorded, IntMap.find]
  · rw [h]
    simp [qValue, recorded, IntMap.find]

/-- The loop of `updateQTable` entered with `i` processes the first `i` items
of the history from the last of them down to the first. -/
theorem updateLoop_eq_foldr_take (env : Environment) (alpha gamma : ℚ)
    (history : List (Int × Int)) (i : Nat) (hi : i ≤ history.length)
    (st : List (Int × List (Int × Int)) × ℚ) :
    QLearningAgent.updateLoop env alpha gamma history i st
      = (history.take i).foldr
          (fun item acc => QLearningAgent.updateStep env alpha gamma acc item) st := by
  induction i generalizing st with
  | zero => simp [QLearningAgent.updateLoop]
  | succ n ih =>
    have hn : n < history.length := hi
    have hget : history.get? n = some (history.get ⟨n, hn⟩) := List.get?_eq_get hn
    have htake : history.take (n + 1) = history.take n ++ [history.get ⟨n, hn⟩] := by
      rw [List.take_succ, ← List.get?_eq_getElem?, hget]
      rfl
    unfold QLearningAgent.updateLoop
    rw [hget, htake, List.foldr_append]
    exact ih (Nat.le_of_lt hn) _

/-- `updateQTable` on a non-empty history is the fold of `updateStep` over the
history, last item first, started with the terminal reward. -/
theorem updateQTable_eq_foldr (env : Environment) (ag : QLearningAgent) (reward : Int)
    (h : ag.m_actionHistory ≠ []) :
    (QLearningAgent.updateQTable env ag reward).m_qTable
      = (ag.m_actionHistory.foldr
          (fun item acc => QLearningAgent.updateStep env ag.m_alpha ag.m_gamma acc item)
          (ag.m_qTable, (reward : ℚ))).1 := by
  unfold QLearningAgent.updateQTable
  rw [isEmpty_eq_false_of_ne_nil _ h]
  simp only [Bool.false_eq_true, if_false]
  rw [updateLoop_eq_foldr_take env _ _ _ _ (le_refl _), List.take_length]

/-- The entry of the updated pair is inserted (with value 0) before
`maxQ(nextState)` is evaluated: on a self-loop `0 → 0` under a new action, with
`-5` the only recorded value of state 0, the program uses `maxQ(0) = 0` and
leaves `Q[0][2] = 7`, where the backward pass of the specification uses
`maxQ(0) = -5` and leaves `2` (α = γ = 1, R = 7, all values whole numbers). -/
theorem updateQTable_inserts_before_maxQ :
    (QLearningAgent.stopSession ⟨[(0, [(2, 0)])]⟩
      (QLearningAgent.mk [(0, [(1, -5)])] [(0, 2)] 1 1 0) 7).m_qTable
      = [(0, [(1, -5), (2, 7)])] ∧
    specBackwardPass ⟨[(0, [(2, 0)])]⟩ 1 1 [(0, 2)] [(0, [(1, -5)])] 7
      = [(0, [(1, -5), (2, 2)])] := by
  constructor
  · have ht : truncToInt 7 = 7 := by
      rw [truncToInt_eq_iff]
      norm_num
    simp [QLearningAgent.stopSession, QLearningAgent.updateQTable, QLearningAgent.updateLoop,
      QLearningAgent.updateStep, QLearningAgent.maxQ, IntMap.access, IntMap.find,
      IntMap.insert, IntMap.read2, IntMap.assign2, Environment.nextState, max_element_from,
      compSecond]
    norm_num [ht]
  · simp [specBackwardPass, specStep, specQ, specMaxQ, IntMap.access, IntMap.find,
      IntMap.insert, IntMap.assign2, Environment.nextState]
    norm_num

/-! ## The transition lookup of the environment -/

theorem find_ne_none_iff_mem_keys {V : Type} (m : List (Int × V)) (k : Int) :
    IntMap.find m k ≠ none ↔ k ∈ m.map Prod.fst := by
  induction m with
  | nil => simp [IntMap.find]
  | cons p rest ih =>
    obtain ⟨k', v'⟩ := p
    by_cases hk : k' = k
    · simp [IntMap.find, hk]
    · have hk2 : ¬ k = k' := fun e => hk e.symm
      simp only [IntMap.find, hk, if_false, ih, List.map_cons, List.mem_cons, hk2, false_or]

theorem find_access_snd_ne {V : Type} (m : List (Int × V)) (k j : Int) (d : V)
    (hj : j ≠ k) : IntMap.find (IntMap.access m k d).2 j = IntMap.find m j := by
  unfold IntMap.access
  cases IntMap.find m k with
  | none => exact IntMap.find_insert_ne m k j d hj
  | some v => rfl

theorem find_assign2_ne {V : Type} (m : List (Int × List (Int × V))) (s a j : Int) (v : V)
    (hj : j ≠ s) : IntMap.find (IntMap.assign2 m s a v) j = IntMap.find m j := by
  unfold IntMap.assign2
  rw [IntMap.find_insert_ne _ _ _ _ hj]
  exact find_access_snd_ne m s j [] hj

theorem find_assign2_same {V : Type} (m : List (Int × List (Int × V))) (s a : Int) (v : V) :
    IntMap.find (IntMap.assign2 m s a v) s
      = some (IntMap.insert (IntMap.access m s []).1 a v) := by
  unfold IntMap.assign2
  exact IntMap.find_insert_self _ _ _

theorem configured_setTransition (env : Environment) (s a n s' a' : Int) :
    configured (env.setTransition s a n) s' a'
      = if s' = s ∧ a' = a then some n else configured env s' a' := by
  unfold configured Environment.setTransition
  by_cases hs : s' = s
  · subst hs
    simp only [find_assign2_same, true_and]
    by_cases ha : a' = a
    · subst ha
      simp [IntMap.find_insert_self]
    · rw [IntMap.find_insert_ne _ _ _ _ ha]
      simp only [ha, if_false]
      unfold IntMap.access
      cases IntMap.find env.m_transitions s' with
      | none => rfl
      | some row => rfl
  · simp only [find_assign2_ne _ _ _ _ _ hs, hs, false_and, if_false]

theorem nextState_eq_configured (env : Environment) (s a : Int) :
    env.nextState s a = (configured env s a).getD (-1) := by
  unfold Environment.nextState configured
  cases IntMap.find env.m_transitions s with
  | none => rfl
  | some row =>
    cases h : IntMap.find row a with
    | none => simp [h]
    | some n => simp [h]

theorem mem_availableActions_iff (env : Environment) (s a : Int) :
    a ∈ env.availableActions s ↔ configured env s a ≠ none := by
  unfold Environment.availableActions configured
  cases IntMap.find env.m_transitions s with
  | none => simp
  | some row => exact (find_ne_none_iff_mem_keys row a).symm

theorem build_append_singleton (calls : List (Int × Int × Int)) (c : Int × Int × Int) :
    build (calls ++ [c]) = (build calls).setTransition c.1 c.2.1 c.2.2 := by
  simp [build, List.foldl_append]

theorem lastSet_append_singleton (calls : List (Int × Int × Int)) (c : Int × Int × Int)
    (s a : Int) :
    lastSet (calls ++ [c]) s a
      = if c.1 = s ∧ c.2.1 = a then some c.2.2 else lastSet calls s a := by
  simp [lastSet, List.foldl_append]

theorem configured_build (calls : List (Int × Int × Int)) (s a : Int) :
    configured (build calls) s a = lastSet calls s a := by
  induction calls using List.reverseRecOn with
  | nil => simp [build, lastSet, configured, IntMap.find]
  | append_singleton l c ih =>
    rw [build_append_singleton, lastSet_append_singleton, configured_setTransition, ih]
    by_cases h : s = c.1 ∧ a = c.2.1
    · have h' : c.1 = s ∧ c.2.1 = a := ⟨h.1.symm, h.2.symm⟩
      rw [if_pos h, if_pos h']
    · have h' : ¬ (c.1 = s ∧ c.2.1 = a) := fun e => h ⟨e.1.symm, e.2.symm⟩
      rw [if_neg h, if_neg h']

theorem lastSet_ne_none_iff (calls : List (Int × Int × Int)) (s a : Int) :
    lastSet calls s a ≠ none ↔ ∃ n, (s, a, n) ∈ calls := by
  induction calls using List.reverseRecOn with
  | nil => simp [lastSet]
  | append_singleton l c ih =>
    rw [lastSet_append_singleton]
    obtain ⟨cs, ca, cn⟩ := c
    by_cases h : cs = s ∧ ca = a
    · simp only [h, and_self, if_true]
      constructor
      · intro _
        exact ⟨cn, by rw [← h.1, ← h.2]; simp⟩
      · intro _
        simp
    · simp only [h, if_false, ih]
      constructor
      · rintro ⟨n, hn⟩
        exact ⟨n, List.mem_append_left _ hn⟩
      · rintro ⟨n, hn⟩
        rcases List.mem_append.1 hn with h1 | h1
        · exact ⟨n, h1⟩
        · simp only [List.mem_singleton, Prod.mk.injEq] at h1
          exact absurd ⟨h1.1.symm, h1.2.1.symm⟩ h

/-- The claim C11 fails as stated: after `setTransition(0, 1, -1)` the pair
`(0, 1)` is configured, yet `nextState(0, 1)` returns `-1`, the value that
also reports an invalid lookup. -/
theorem nextState_sentinel_counterexample :
    (1 : Int) ∈ (build [(0, 1, -1)]).availableActions 0 ∧
    lastSet [(0, 1, -1)] 0 1 = some (-1) ∧
    (build [(0, 1, -1)]).nextState 0 1 = -1 ∧
    ¬ ((build [(0, 1, -1)]).nextState 0 1 = -1 ↔
        ((build [(0, 1, -1)]).availableActions 0 = [] ∨
          (1 : Int) ∉ (build [(0, 1, -1)]).availableActions 0)) := by
  decide

/-- C11 as amended. For the environment built by any sequence of
`setTransition` calls, `nextState(state, action)` (a total function: it never
aborts) returns the next state of the last call for `(state, action)`, and
`-1` when there is no such call; so it returns `-1` if and only if the state
has no configured transition, or the action is not configured for the state,
or the next state configured for the pair is itself `-1`. -/
theorem nextState_sentinel (calls : List (Int × Int × Int)) (state action : Int) :
    (∀ n, lastSet calls state action = some n →
      (build calls).nextState state action = n) ∧
    (lastSet calls state action = none → (build calls).nextState state action = -1) ∧
    ((build calls).nextState state action = -1 ↔
      ((build calls).availableActions state = [] ∨
        action ∉ (build calls).availableActions state ∨
        lastSet calls state action = some (-1))) := by
  have hn := nextState_eq_configured (build calls) state action
  have hm := mem_availableActions_iff (build calls) state action
  rw [configured_build] at hn hm
  refine ⟨fun n h => by rw [hn, h]; rfl, fun h => by rw [hn, h]; rfl, ?_⟩
  rw [hn, hm]
  cases hl : lastSet calls state action with
  | none => simp
  | some n =>
    simp only [Option.getD_some, ne_eq, reduceCtorEq, not_false_eq_true, not_true_eq_false,
      false_or, Option.some.injEq]
    constructor
    · intro h
      exact Or.inr h
    · rintro (h | h)
      · have hmem : action ∈ (build calls).availableActions state := by
          rw [mem_availableActions_iff, configured_build, hl]
          simp
        rw [h] at hmem
        simp at hmem
      · exact h

/-- Witness of the amended C11 on two calls: the configured pair `(0, 2)`
yields its next state 1, the unconfigured pair `(0, 3)` yields `-1`. -/
theorem nextState_sentinel_witness :
    (lastSet [(0, 2, 1), (1, 1, 4)] 0 2 = some 1 ∧
      (build [(0, 2, 1), (1, 1, 4)]).nextState 0 2 = 1) ∧
    (lastSet [(0, 2, 1), (1, 1, 4)] 0 3 = none ∧
      (build [(0, 2, 1), (1, 1, 4)]).nextState 0 3 = -1) :=
  ⟨⟨by decide, (nextState_sentinel [(0, 2, 1), (1, 1, 4)] 0 2).1 1 (by decide)⟩,
   ⟨by decide, (nextState_sentinel [(0, 2, 1), (1, 1, 4)] 0 3).2.1 (by decide)⟩⟩

theorem insert_insert_same {V : Type} (m : List (Int × V)) (k : Int) (v : V) :
    IntMap.insert (IntMap.insert m k v) k v = IntMap.insert m k v := by
  induction m with
  | nil => simp [IntMap.insert]
  | cons p rest ih =>
    obtain ⟨k', v'⟩ := p
    by_cases h1 : k < k'
    · simp [IntMap.insert, h1]
    · by_cases h2 : k = k'
      · simp [IntMap.insert, h2]
      · simp [IntMap.insert, h1, h2, ih]

/-- C12. `setTransition(s, a, n)` is a point update of the lookup: afterwards
`nextState(s, a)` returns `n`, whatever was set before, and `nextState` of
every other pair returns what it returned before. (`nextState` is a `const`
member: it is a function of the environment alone and returns no new
environment, so repeating the call repeats the value.) -/
theorem setTransition_point_update (env : Environment) (s a n : Int) :
    (env.setTransition s a n).nextState s a = n ∧
    (∀ s' a', ¬ (s' = s ∧ a' = a) →
      (env.setTransition s a n).nextState s' a' = env.nextState s' a') := by
  constructor
  · rw [nextState_eq_configured, configured_setTransition]
    simp
  · intro s' a' h
    rw [nextState_eq_configured, nextState_eq_configured, configured_setTransition, if_neg h]

/-- Witness of C12: overwriting `(0, 2)` leaves the lookup of `(0, 1)` alone. -/
theorem setTransition_point_update_witness :
    Environment.nextState (Environment.setTransition ⟨[(0, [(1, 3), (2, 1)])]⟩ 0 2 5) 0 2 = 5 ∧
    (¬ ((0 : Int) = 0 ∧ (1 : Int) = 2) ∧
      Environment.nextState (Environment.setTransition ⟨[(0, [(1, 3), (2, 1)])]⟩ 0 2 5) 0 1
        = Environment.nextState ⟨[(0, [(1, 3), (2, 1)])]⟩ 0 1) :=
  ⟨(setTransition_point_update ⟨[(0, [(1, 3), (2, 1)])]⟩ 0 2 5).1,
   by decide,
   (setTransition_point_update ⟨[(0, [(1, 3), (2, 1)])]⟩ 0 2 5).2 0 1 (by decide)⟩

/-- C13. Calling `setTransition(s, a, n)` twice yields the same environment as
calling it once, so `availableActions` and `nextState` return the same results
for every state and action. -/
theorem setTransition_idempotent (env : Environment) (s a n : Int) :
    (env.setTransition s a n).setTransition s a n = env.setTransition s a n ∧
    (∀ x, ((env.setTransition s a n).setTransition s a n).availableActions x
      = (env.setTransition s a n).availableActions x) ∧
    (∀ x y, ((env.setTransition s a n).setTransition s a n).nextState x y
      = (env.setTransition s a n).nextState x y) := by
  have h : (env.setTransition s a n).setTransition s a n = env.setTransition s a n := by
    unfold Environment.setTransition
    congr 1
    show IntMap.assign2 (IntMap.assign2 env.m_transitions s a n) s a n
      = IntMap.assign2 env.m_transitions s a n
    have hf := find_assign2_same env.m_transitions s a n
    generalize hm : IntMap.assign2 env.m_transitions s a n = m' at hf
    have hacc : IntMap.access m' s []
        = (IntMap.insert (IntMap.access env.m_transitions s []).1 a n, m') := by
      simp [IntMap.access, hf]
    unfold IntMap.assign2 at hm ⊢
    simp only [hacc, insert_insert_same]
    rw [← hm]
    exact insert_insert_same _ _ _
  exact ⟨h, fun x => by rw [h], fun x y => by rw [h]⟩

/-! ## Available actions and random transitions -/

theorem mem_insert_cases {V : Type} (m : List (Int × V)) (k : Int) (v : V) (p : Int × V)
    (hp : p ∈ IntMap.insert m k v) : p.1 = k ∨ p ∈ m := by
  induction m with
  | nil =>
    simp only [IntMap.insert, List.mem_singleton] at hp
    left
    rw [hp]
  | cons x rest ih =>
    obtain ⟨k', v'⟩ := x
    unfold IntMap.insert at hp
    split_ifs at hp with h1 h2
    · rcases List.mem_cons.1 hp with h | h
      · left
        rw [h]
      · right
        exact h
    · rcases List.mem_cons.1 hp with h | h
      · left
        rw [h]
      · right
        exact List.mem_cons_of_mem _ h
    · rcases List.mem_cons.1 hp with h | h
      · right
        rw [h]
        exact List.mem_cons_self _ _
      · rcases ih h with h3 | h3
        · left
          exact h3
        · right
          exact List.mem_cons_of_mem _ h3

theorem insert_sorted {V : Type} (m : List (Int × V)) (k : Int) (v : V)
    (hs : IntMap.Sorted m) : IntMap.Sorted (IntMap.insert m k v) := by
  induction m with
  | nil => simp [IntMap.insert, IntMap.Sorted]
  | cons x rest ih =>
    obtain ⟨k', v'⟩ := x
    unfold IntMap.Sorted at hs ih ⊢
    have hs' := List.pairwise_cons.1 hs
    unfold IntMap.insert
    split_ifs with h1 h2
    · refine List.pairwise_cons.2 ⟨?_, hs⟩
      intro p hp
      rcases List.mem_cons.1 hp with h | h
      · rw [h]
        exact h1
      · exact lt_trans h1 (hs'.1 p h)
    · refine List.pairwise_cons.2 ⟨?_, hs'.2⟩
      intro p hp
      rw [h2]
      exact hs'.1 p hp
    · refine List.pairwise_cons.2 ⟨?_, ih hs'.2⟩
      intro p hp
      rcases mem_insert_cases rest k v p hp with h | h
      · rw [h]
        exact lt_of_le_of_ne (not_lt.1 h1) (fun e => h2 e.symm)
      · exact hs'.1 p h

theorem rows_sorted_build (calls : List (Int × Int × Int)) (s : Int) (row : List (Int × Int))
    (h : IntMap.find (build calls).m_transitions s = some row) : IntMap.Sorted row := by
  induction calls using List.reverseRecOn generalizing s row with
  | nil => simp [build, IntMap.find] at h
  | append_singleton l c ih =>
    rw [build_append_singleton] at h
    unfold Environment.setTransition at h
    simp only at h
    by_cases hs : s = c.1
    · subst hs
      rw [find_assign2_same] at h
      have hrow : IntMap.Sorted (IntMap.access (build l).m_transitions c.1 []).1 := by
        unfold IntMap.access
        cases hf : IntMap.find (build l).m_transitions c.1 with
        | none => simp [IntMap.Sorted]
        | some r => exact ih c.1 r hf
      rw [← Option.some.inj h]
      exact insert_sorted _ _ _ hrow
    · rw [find_assign2_ne _ _ _ _ _ hs] at h
      exact ih s row h

theorem nodup_keys_of_sorted {V : Type} (m : List (Int × V)) (hs : IntMap.Sorted m) :
    (m.map Prod.fst).Nodup := by
  unfold IntMap.Sorted at hs
  unfold List.Nodup
  rw [List.pairwise_map]
  exact hs.imp (fun h => ne_of_lt h)

/-- C14. For the environment built by any sequence of `setTransition` calls,
`availableActions(state)` (a function of the environment alone, which it does
not change) returns a duplicate-free list that contains an action `a` if and
only if some call `setTransition(state, a, _)` was made; it is empty when no
transition of `state` was set. -/
theorem availableActions_spec (calls : List (Int × Int × Int)) (state : Int) :
    ((build calls).availableActions state).Nodup ∧
    (∀ a, a ∈ (build calls).availableActions state ↔ ∃ n, (state, a, n) ∈ calls) ∧
    ((∀ a n, (state, a, n) ∉ calls) → (build calls).availableActions state = []) := by
  have hmem : ∀ a, a ∈ (build calls).availableActions state ↔ ∃ n, (state, a, n) ∈ calls := by
    intro a
    rw [mem_availableActions_iff, configured_build, lastSet_ne_none_iff]
  refine ⟨?_, hmem, ?_⟩
  · unfold Environment.availableActions
    cases hf : IntMap.find (build calls).m_transitions state with
    | none => simp
    | some row => exact nodup_keys_of_sorted row (rows_sorted_build calls state row hf)
  · intro h
    apply List.eq_nil_iff_forall_not_mem.2
    intro a ha
    obtain ⟨n, hn⟩ := (hmem a).1 ha
    exact h a n hn

/-- Witness of C14: state 7 has no transition among the calls, so its list of
available actions is empty; state 0 has the actions 1 and 2, each once although
`(0, 2)` was set twice. -/
theorem availableActions_spec_witness :
    (∀ a n, ((7 : Int), a, n) ∉ [((0 : Int), (2 : Int), (1 : Int)), (0, 1, 3), (0, 2, 5)]) ∧
    (build [(0, 2, 1), (0, 1, 3), (0, 2, 5)]).availableActions 7 = [] ∧
    (build [(0, 2, 1), (0, 1, 3), (0, 2, 5)]).availableActions 0 = [1, 2] :=
  ⟨by simp,
   (availableActions_spec [(0, 2, 1), (0, 1, 3), (0, 2, 5)] 7).2.2 (by simp),
   by decide⟩

theorem randomTransition_of_available (env : Environment) (state : Int) (r : Nat)
    (hne : env.availableActions state ≠ []) :
    ∃ a n, env.randomTransition state r = .ok (a, n) ∧
      a ∈ env.availableActions state ∧
      configured env state a = some n ∧
      n = env.nextState state a := by
  have hlen : ¬ (env.availableActions state).length = 0 := fun e =>
    hne (List.length_eq_zero.1 e)
  have hmem : (env.availableActions state).get
      ⟨r % (env.availableActions state).length,
        Nat.mod_lt r (Nat.pos_of_ne_zero hlen)⟩ ∈ env.availableActions state :=
    List.get_mem _ _ _
  generalize ha : (env.availableActions state).get
      ⟨r % (env.availableActions state).length,
        Nat.mod_lt r (Nat.pos_of_ne_zero hlen)⟩ = a at hmem
  have hcfg := (mem_availableActions_iff env state a).1 hmem
  obtain ⟨n, hn⟩ := Option.ne_none_iff_exists'.1 hcfg
  have hnext : env.nextState state a = n := by
    rw [nextState_eq_configured, hn]
    rfl
  refine ⟨a, n, ?_, hmem, hn, hnext.symm⟩
  unfold Environment.randomTransition
  simp only [hlen, dite_false, ha, hnext]

/-- C15. `randomTransition(state)` fails with an error if and only if no
action is configured for `state`; otherwise, for every outcome of `rand()`, it
returns a pair `(a, n)` where `a` is a member of `availableActions(state)` and
`n` is the next state configured for `(state, a)`, which is what
`nextState(state, a)` returns through its valid-lookup branch. -/
theorem randomTransition_spec (env : Environment) (state : Int) (r : Nat) :
    ((∃ e, env.randomTransition state r = .error e) ↔ env.availableActions state = []) ∧
    (env.availableActions state ≠ [] →
      ∃ a n, env.randomTransition state r = .ok (a, n) ∧
        a ∈ env.availableActions state ∧
        configured env state a = some n ∧
        n = env.nextState state a) := by
  constructor
  · constructor
    · rintro ⟨e, he⟩
      by_contra hne
      obtain ⟨a, n, h, _⟩ := randomTransition_of_available env state r hne
      rw [h] at he
      cases he
    · intro h
      rcases randomTransition_cases env state r with ⟨_, h1⟩ | ⟨h1, _⟩
      · exact ⟨_, h1⟩
      · exact absurd h h1
  · exact randomTransition_of_available env state r

/-- Witness of C15 on a state with two configured actions. -/
theorem randomTransition_spec_witness :
    Environment.availableActions ⟨[(0, [(1, 3), (2, 1)])]⟩ 0 ≠ [] ∧
    ∃ a n, Environment.randomTransition ⟨[(0, [(1, 3), (2, 1)])]⟩ 0 5 = .ok (a, n) ∧
      a ∈ Environment.availableActions ⟨[(0, [(1, 3), (2, 1)])]⟩ 0 ∧
      configured ⟨[(0, [(1, 3), (2, 1)])]⟩ 0 a = some n ∧
      n = Environment.nextState ⟨[(0, [(1, 3), (2, 1)])]⟩ 0 a :=
  ⟨by decide, (randomTransition_spec ⟨[(0, [(1, 3), (2, 1)])]⟩ 0 5).2 (by decide)⟩

/-! ## Entries of the Q-table under the operations of the agent -/

theorem recorded_insert (q : List (Int × List (Int × Int))) (k s : Int)
    (row : List (Int × Int)) :
    recorded (IntMap.insert q k row) s = if s = k then row else recorded q s := by
  unfold recorded
  by_cases h : s = k
  · subst h
    simp [IntMap.find_insert_self]
  · rw [IntMap.find_insert_ne _ _ _ _ h]
    simp [h]

theorem recorded_access (q : List (Int × List (Int × Int))) (k s : Int) :
    recorded (IntMap.access q k []).2 s = recorded q s := by
  unfold IntMap.access
  cases hf : IntMap.find q k with
  | some row => rfl
  | none =>
    show recorded (IntMap.insert q k []) s = recorded q s
    rw [recorded_insert]
    by_cases h : s = k
    · subst h
      simp [recorded, hf]
    · simp [h]

theorem recorded_assign2 (q : List (Int × List (Int × Int))) (s a v s' : Int) :
    recorded (IntMap.assign2 q s a v) s'
      = if s' = s then IntMap.insert (recorded q s) a v else recorded q s' := by
  unfold IntMap.assign2
  rw [recorded_insert, access_fst_eq_recorded, recorded_access]

theorem recorded_read2 (q : List (Int × List (Int × Int))) (s a s' : Int) :
    recorded (IntMap.read2 q s a).2 s'
      = if s' = s then (IntMap.access (recorded q s) a 0).2 else recorded q s' := by
  unfold IntMap.read2
  show recorded (IntMap.insert (IntMap.access q s []).2 s
      (IntMap.access (IntMap.access q s []).1 a 0).2) s' = _
  rw [recorded_insert, access_fst_eq_recorded, recorded_access]

theorem read2_fst (q : List (Int × List (Int × Int))) (s a : Int) :
    (IntMap.read2 q s a).1 = (entry q s a).getD 0 := by
  unfold IntMap.read2 entry
  show (IntMap.access (IntMap.access q s []).1 a 0).1 = _
  rw [access_fst_eq_recorded]
  unfold IntMap.access
  cases IntMap.find (recorded q s) a <;> rfl

theorem entry_access (q : List (Int × List (Int × Int))) (k s a : Int) :
    entry (IntMap.access q k []).2 s a = entry q s a := by
  unfold entry
  rw [recorded_access]

theorem entry_assign2 (q : List (Int × List (Int × Int))) (s a v s' a' : Int) :
    entry (IntMap.assign2 q s a v) s' a'
      = if s' = s ∧ a' = a then some v else entry q s' a' := by
  unfold entry
  rw [recorded_assign2]
  by_cases hs : s' = s
  · subst hs
    by_cases ha : a' = a
    · subst ha
      simp [IntMap.find_insert_self]
    · simp [ha, IntMap.find_insert_ne _ _ _ _ ha]
  · simp [hs]

theorem entry_read2 (q : List (Int × List (Int × Int))) (s a s' a' : Int) :
    entry (IntMap.read2 q s a).2 s' a'
      = if s' = s ∧ a' = a then some ((entry q s a).getD 0) else entry q s' a' := by
  unfold entry
  rw [recorded_read2]
  by_cases hs : s' = s
  · subst hs
    simp only [if_true, true_and]
    unfold IntMap.access
    cases hf : IntMap.find (recorded q s') a with
    | some v =>
      by_cases ha : a' = a
      · subst ha
        simp [hf]
      · simp [ha]
    | none =>
      by_cases ha : a' = a
      · subst ha
        simp [IntMap.find_insert_self]
      · simp [ha, IntMap.find_insert_ne _ _ _ _ ha]
  · simp [hs]

theorem maxQ_fst_eq (q : List (Int × List (Int × Int))) (state : Int) :
    (QLearningAgent.maxQ q state).1
      = if state = -1 then 0 else
          match recorded q state with
          | [] => 0
          | first :: rest => ((max_element_from compSecond first rest).2 : ℚ) := by
  unfold QLearningAgent.maxQ
  by_cases hs : state = -1
  · simp [hs]
  · simp only [hs, if_false]
    have h := access_fst_eq_recorded q state
    generalize IntMap.access q state [] = acc at h
    obtain ⟨row, q1⟩ := acc
    simp only at h
    subst h
    cases recorded q state <;> rfl

theorem maxQ_snd (q : List (Int × List (Int × Int))) (state : Int) :
    (QLearningAgent.maxQ q state).2 = q ∨
      (QLearningAgent.maxQ q state).2 = (IntMap.access q state []).2 := by
  unfold QLearningAgent.maxQ
  by_cases hs : state = -1
  · left
    simp [hs]
  · right
    simp only [hs, if_false]
    generalize IntMap.access q state [] = acc
    obtain ⟨row, q1⟩ := acc
    cases row <;> rfl

theorem recorded_maxQ (q : List (Int × List (Int × Int))) (state s : Int) :
    recorded (QLearningAgent.maxQ q state).2 s = recorded q s := by
  rcases maxQ_snd q state with h | h
  · rw [h]
  · rw [h, recorded_access]

theorem entry_maxQ (q : List (Int × List (Int × Int))) (state s a : Int) :
    entry (QLearningAgent.maxQ q state).2 s a = entry q s a := by
  unfold entry
  rw [recorded_maxQ]

theorem bestTransition_snd (env : Environment) (q : List (Int × List (Int × Int)))
    (state : Int) :
    (QLearningAgent.bestTransition env q state).2 = q ∨
      (QLearningAgent.bestTransition env q state).2 = (IntMap.access q state []).2 := by
  unfold QLearningAgent.bestTransition
  by_cases he : q.isEmpty = true
  · left
    simp [he]
  · right
    simp only [he, if_false]
    generalize IntMap.access q state [] = acc
    obtain ⟨row, q1⟩ := acc
    cases row <;> rfl

theorem recorded_bestTransition (env : Environment) (q : List (Int × List (Int × Int)))
    (state s : Int) :
    recorded (QLearningAgent.bestTransition env q state).2 s = recorded q s := by
  rcases bestTransition_snd env q state with h | h
  · rw [h]
  · rw [h, recorded_access]

theorem chooseTransition_snd (env : Environment) (RAND_MAX : Nat) (ag : QLearningAgent)
    (state : Int) (r1 r2 : Nat) :
    ∃ q1, (ag.chooseTransition env RAND_MAX state r1 r2).2 = { ag with m_qTable := q1 } ∧
      ∀ s, recorded q1 s = recorded ag.m_qTable s := by
  unfold QLearningAgent.chooseTransition
  by_cases he : ag.m_qTable.isEmpty = true
  · exact ⟨ag.m_qTable, by simp [he], fun s => rfl⟩
  · simp only [he, if_false]
    have hacc := recorded_access ag.m_qTable state
    generalize IntMap.access ag.m_qTable state [] = acc at hacc
    obtain ⟨row, q1⟩ := acc
    simp only at hacc ⊢
    by_cases hrow : row.isEmpty = true
    · exact ⟨q1, by simp [hrow], hacc⟩
    · simp only [hrow, if_false]
      by_cases heps : (r1 : ℚ) / (RAND_MAX : ℚ) < ag.m_epsilon
      · exact ⟨q1, by simp [heps], hacc⟩
      · simp only [heps, if_false]
        refine ⟨(QLearningAgent.bestTransition env q1 state).2, rfl, ?_⟩
        intro s
        rw [recorded_bestTransition, hacc]

/-! ## The episode trace -/

theorem runEpisodeCall_history (env : Environment) (RAND_MAX : Nat) (ag : QLearningAgent)
    (c : EpisodeCall) :
    (runEpisodeCall env RAND_MAX ag c).m_actionHistory
      = ag.m_actionHistory ++ addedPairs [c] := by
  cases c with
  | addActionHistory state action => rfl
  | chooseTransition state r1 r2 =>
    obtain ⟨q1, h, _⟩ := chooseTransition_snd env RAND_MAX ag state r1 r2
    show (ag.chooseTransition env RAND_MAX state r1 r2).2.m_actionHistory = _
    rw [h]
    simp [addedPairs]

theorem addedPairs_cons (c : EpisodeCall) (calls : List EpisodeCall) :
    addedPairs (c :: calls) = addedPairs [c] ++ addedPairs calls := by
  cases c <;> rfl

theorem foldl_runEpisodeCall_history (env : Environment) (RAND_MAX : Nat)
    (calls : List EpisodeCall) (ag : QLearningAgent) :
    (calls.foldl (runEpisodeCall env RAND_MAX) ag).m_actionHistory
      = ag.m_actionHistory ++ addedPairs calls := by
  induction calls generalizing ag with
  | nil => simp [addedPairs]
  | cons c rest ih =>
    rw [List.foldl_cons, ih, runEpisodeCall_history, addedPairs_cons c rest,
      List.append_assoc]

/-- C16. Whatever the agent was before, after `startSession()` followed by
any sequence of `addActionHistory` and `chooseTransition` calls the episode
trace is exactly the list of the pairs given to `addActionHistory`, in call
order: no entry of an earlier episode survives `startSession`. `startSession`
and `addActionHistory` leave the Q-table unchanged. -/
theorem episode_trace (env : Environment) (RAND_MAX : Nat) (ag : QLearningAgent)
    (calls : List EpisodeCall) :
    (calls.foldl (runEpisodeCall env RAND_MAX) ag.startSession).m_actionHistory
      = addedPairs calls ∧
    ag.startSession.m_actionHistory = [] ∧
    ag.startSession.m_qTable = ag.m_qTable ∧
    (∀ state action, (ag.addActionHistory state action).m_qTable = ag.m_qTable) := by
  refine ⟨?_, rfl, rfl, fun _ _ => rfl⟩
  rw [foldl_runEpisodeCall_history]
  rfl

/-- An episode of the demonstration: a stale trace `[(8, 3)]`, then
`startSession`, and two steps each made of a `chooseTransition` and an
`addActionHistory`; the trace is `[(0, 2), (1, 1)]`. -/
theorem episode_trace_witness :
    (List.foldl (runEpisodeCall ⟨[(0, [(1, 3), (2, 1)]), (1, [(1, 4)])]⟩ 32767)
      (QLearningAgent.startSession (QLearningAgent.mk [] [(8, 3)] (1/10) (7/10) (1/10)))
      [EpisodeCall.chooseTransition 0 0 1, EpisodeCall.addActionHistory 0 2,
       EpisodeCall.chooseTransition 1 0 0, EpisodeCall.addActionHistory 1 1]).m_actionHistory
      = [(0, 2), (1, 1)] :=
  (episode_trace ⟨[(0, [(1, 3), (2, 1)]), (1, [(1, 4)])]⟩ 32767
    (QLearningAgent.mk [] [(8, 3)] (1/10) (7/10) (1/10))
    [EpisodeCall.chooseTransition 0 0 1, EpisodeCall.addActionHistory 0 2,
     EpisodeCall.chooseTransition 1 0 0, EpisodeCall.addActionHistory 1 1]).1

/-! ## The update pass, step by step -/

theorem updateStep_eq (env : Environment) (alpha gamma : ℚ)
    (st : List (Int × List (Int × Int)) × ℚ) (item : Int × Int) :
    QLearningAgent.updateStep env alpha gamma st item
      = (IntMap.assign2
          (QLearningAgent.maxQ (IntMap.read2 st.1 item.1 item.2).2
            (env.nextState item.1 item.2)).2 item.1 item.2
          (truncToInt (((IntMap.read2 st.1 item.1 item.2).1 : ℚ) + alpha * (st.2 + gamma *
            (QLearningAgent.maxQ (IntMap.read2 st.1 item.1 item.2).2
              (env.nextState item.1 item.2)).1 - ((IntMap.read2 st.1 item.1 item.2).1 : ℚ)))),
        ((IntMap.read2 st.1 item.1 item.2).1 : ℚ) + alpha * (st.2 + gamma *
            (QLearningAgent.maxQ (IntMap.read2 st.1 item.1 item.2).2
              (env.nextState item.1 item.2)).1 - ((IntMap.read2 st.1 item.1 item.2).1 : ℚ))) := by
  unfold QLearningAgent.updateStep
  dsimp only

theorem updateStep_entry (env : Environment) (alpha gamma : ℚ)
    (st : List (Int × List (Int × Int)) × ℚ) (item : Int × Int) (s a : Int) :
    entry (QLearningAgent.updateStep env alpha gamma st item).1 s a
      = if s = item.1 ∧ a = item.2
        then some (truncToInt (QLearningAgent.updateStep env alpha gamma st item).2)
        else entry st.1 s a := by
  rw [updateStep_eq]
  simp only
  rw [entry_assign2]
  by_cases h : s = item.1 ∧ a = item.2
  · rw [if_pos h, if_pos h]
  · rw [if_neg h, if_neg h, entry_maxQ, entry_read2, if_neg h]

theorem foldr_updateStep_entry_ne_none (env : Environment) (alpha gamma : ℚ)
    (history : List (Int × Int)) (st : List (Int × List (Int × Int)) × ℚ) (s a : Int) :
    entry (history.foldr
        (fun item acc => QLearningAgent.updateStep env alpha gamma acc item) st).1 s a ≠ none
      ↔ (entry st.1 s a ≠ none ∨ (s, a) ∈ history) := by
  induction history with
  | nil => simp
  | cons x rest ih =>
    rw [List.foldr_cons, updateStep_entry]
    by_cases h : s = x.1 ∧ a = x.2
    · have hx : (s, a) = x := by
        rw [h.1, h.2]
      simp [h, hx]
    · have hx : ¬ (s, a) = x := by
        intro e
        apply h
        rw [← e]
        exact ⟨rfl, rfl⟩
      rw [if_neg h, ih, List.mem_cons]
      simp [hx]

theorem foldr_updateStep_entry_of_not_mem (env : Environment) (alpha gamma : ℚ)
    (history : List (Int × Int)) (st : List (Int × List (Int × Int)) × ℚ) (s a : Int)
    (h : (s, a) ∉ history) :
    entry (history.foldr
        (fun item acc => QLearningAgent.updateStep env alpha gamma acc item) st).1 s a
      = entry st.1 s a := by
  induction history with
  | nil => rfl
  | cons x rest ih =>
    have hx : ¬ (s = x.1 ∧ a = x.2) := by
      intro e
      apply h
      have : (s, a) = x := by rw [e.1, e.2]
      rw [this]
      exact List.mem_cons_self _ _
    rw [List.foldr_cons, updateStep_entry, if_neg hx]
    exact ih (fun hm => h (List.mem_cons_of_mem _ hm))

theorem stopSession_qTable (env : Environment) (ag : QLearningAgent) (reward : Int) :
    (ag.stopSession env reward).m_qTable
      = (ag.m_actionHistory.foldr
          (fun item acc => QLearningAgent.updateStep env ag.m_alpha ag.m_gamma acc item)
          (ag.m_qTable, (reward : ℚ))).1 := by
  by_cases h : ag.m_actionHistory = []
  · simp [QLearningAgent.stopSession, QLearningAgent.updateQTable, h]
  · exact updateQTable_eq_foldr env ag reward h

theorem stopSession_fields (env : Environment) (ag : QLearningAgent) (reward : Int) :
    (ag.stopSession env reward).m_actionHistory = ag.m_actionHistory ∧
    (ag.stopSession env reward).m_alpha = ag.m_alpha ∧
    (ag.stopSession env reward).m_gamma = ag.m_gamma ∧
    (ag.stopSession env reward).m_epsilon = ag.m_epsilon := by
  unfold QLearningAgent.stopSession QLearningAgent.updateQTable
  split_ifs
  · exact ⟨rfl, rfl, rfl, rfl⟩
  · exact ⟨rfl, rfl, rfl, rfl⟩

/-- C17. `stopSession(R)` leaves the episode trace unchanged; the trace is
emptied by `startSession()`; and a second `stopSession` without a
`startSession` in between runs the update pass over the same trace again,
starting from the table the first one left. -/
theorem stopSession_keeps_trace (env : Environment) (ag : QLearningAgent) (reward : Int) :
    (ag.stopSession env reward).m_actionHistory = ag.m_actionHistory ∧
    (ag.stopSession env reward).startSession.m_actionHistory = [] ∧
    (∀ reward2 : Int,
      ((ag.stopSession env reward).stopSession env reward2).m_actionHistory
        = ag.m_actionHistory ∧
      ((ag.stopSession env reward).stopSession env reward2).m_qTable
        = (ag.m_actionHistory.foldr
            (fun item acc => QLearningAgent.updateStep env ag.m_alpha ag.m_gamma acc item)
            ((ag.stopSession env reward).m_qTable, (reward2 : ℚ))).1) := by
  obtain ⟨hh, ha, hg, _⟩ := stopSession_fields env ag reward
  refine ⟨hh, rfl, ?_⟩
  intro reward2
  constructor
  · rw [(stopSession_fields env _ reward2).1, hh]
  · rw [stopSession_qTable, hh, ha, hg]

/-- Witness of C17: with α = γ = 1/2 and the trace `[(0, 2)]`, a first
`stopSession(4)` leaves `Q[0][2] = 2` and the trace in place, and a second
`stopSession(4)` updates the same pair again, to 3. -/
theorem stopSession_keeps_trace_witness :
    (QLearningAgent.stopSession ⟨[(0, [(2, 1)])]⟩
      (QLearningAgent.mk [] [(0, 2)] (1/2) (1/2) 0) 4).m_actionHistory = [(0, 2)] ∧
    (QLearningAgent.stopSession ⟨[(0, [(2, 1)])]⟩
      (QLearningAgent.mk [] [(0, 2)] (1/2) (1/2) 0) 4).m_qTable = [(0, [(2, 2)]), (1, [])] ∧
    (QLearningAgent.stopSession ⟨[(0, [(2, 1)])]⟩
      (QLearningAgent.stopSession ⟨[(0, [(2, 1)])]⟩
        (QLearningAgent.mk [] [(0, 2)] (1/2) (1/2) 0) 4) 4).m_qTable
      = [(0, [(2, 3)]), (1, [])] := by
  have ht2 : truncToInt 2 = 2 := by
    rw [truncToInt_eq_iff]
    norm_num
  have ht3 : truncToInt 3 = 3 := by
    rw [truncToInt_eq_iff]
    norm_num
  have h1 : (QLearningAgent.stopSession ⟨[(0, [(2, 1)])]⟩
      (QLearningAgent.mk [] [(0, 2)] (1/2) (1/2) 0) 4).m_qTable
        = [(0, [(2, 2)]), (1, [])] := by
    simp [QLearningAgent.stopSession, QLearningAgent.updateQTable, QLearningAgent.updateLoop,
      QLearningAgent.updateStep, QLearningAgent.maxQ, IntMap.access, IntMap.find,
      IntMap.insert, IntMap.read2, IntMap.assign2, Environment.nextState]
    norm_num [ht2]
  have h := stopSession_keeps_trace ⟨[(0, [(2, 1)])]⟩
    (QLearningAgent.mk [] [(0, 2)] (1/2) (1/2) 0) 4
  refine ⟨h.1, h1, ?_⟩
  rw [(h.2.2 4).2, h1]
  simp [QLearningAgent.updateStep, QLearningAgent.maxQ, IntMap.access, IntMap.find,
    IntMap.insert, IntMap.read2, IntMap.assign2, Environment.nextState]
  norm_num [ht3]

/-- C18. The Q-table only grows: `startSession`, `addActionHistory` and
`chooseTransition` leave every entry, present or absent, as it is; a pair with
an entry before `stopSession` has one after it; after `stopSession` the pairs
with an entry are exactly those that had one before together with the pairs of
the trace; and a pair outside the trace keeps its value. -/
theorem qTable_grows (env : Environment) (RAND_MAX : Nat) (ag : QLearningAgent) :
    (∀ s a, entry ag.startSession.m_qTable s a = entry ag.m_qTable s a) ∧
    (∀ state action s a,
      entry (ag.addActionHistory state action).m_qTable s a = entry ag.m_qTable s a) ∧
    (∀ state r1 r2 s a,
      entry (ag.chooseTransition env RAND_MAX state r1 r2).2.m_qTable s a
        = entry ag.m_qTable s a) ∧
    (∀ reward s a, entry ag.m_qTable s a ≠ none →
      entry (ag.stopSession env reward).m_qTable s a ≠ none) ∧
    (∀ reward s a, entry (ag.stopSession env reward).m_qTable s a ≠ none ↔
      (entry ag.m_qTable s a ≠ none ∨ (s, a) ∈ ag.m_actionHistory)) ∧
    (∀ reward s a, (s, a) ∉ ag.m_actionHistory →
      entry (ag.stopSession env reward).m_qTable s a = entry ag.m_qTable s a) := by
  refine ⟨fun _ _ => rfl, fun _ _ _ _ => rfl, ?_, ?_, ?_, ?_⟩
  · intro state r1 r2 s a
    obtain ⟨q1, h, hrec⟩ := chooseTransition_snd env RAND_MAX ag state r1 r2
    rw [h]
    unfold entry
    rw [show ({ ag with m_qTable := q1 } : QLearningAgent).m_qTable = q1 from rfl, hrec]
  · intro reward s a h
    rw [stopSession_qTable, foldr_updateStep_entry_ne_none]
    exact Or.inl h
  · intro reward s a
    rw [stopSession_qTable, foldr_updateStep_entry_ne_none]
  · intro reward s a h
    rw [stopSession_qTable]
    exact foldr_updateStep_entry_of_not_mem env _ _ _ _ s a h

/-- Witness of C18: the entry of `(5, 1)`, outside the trace, survives
`stopSession` with its value, and the pair `(0, 2)` of the trace gets one. -/
theorem qTable_grows_witness :
    (((5 : Int), (1 : Int)) ∉ [((0 : Int), (2 : Int))] ∧
      entry (QLearningAgent.stopSession ⟨[(0, [(2, 1)])]⟩
        (QLearningAgent.mk [(5, [(1, 9)])] [(0, 2)] (1/2) (1/2) 0) 4).m_qTable 5 1
        = some 9) ∧
    entry (QLearningAgent.stopSession ⟨[(0, [(2, 1)])]⟩
      (QLearningAgent.mk [(5, [(1, 9)])] [(0, 2)] (1/2) (1/2) 0) 4).m_qTable 0 2 ≠ none :=
  ⟨⟨by decide,
    (qTable_grows ⟨[(0, [(2, 1)])]⟩ 32767
      (QLearningAgent.mk [(5, [(1, 9)])] [(0, 2)] (1/2) (1/2) 0)).2.2.2.2.2 4 5 1 (by decide)⟩,
   ((qTable_grows ⟨[(0, [(2, 1)])]⟩ 32767
      (QLearningAgent.mk [(5, [(1, 9)])] [(0, 2)] (1/2) (1/2) 0)).2.2.2.2.1 4 0 2).2
      (Or.inr (by decide))⟩

/-! ## The conversion `double → int` and the `maxQ` call of a step -/

/-- Truncation is toward zero: the result is no farther from 0 than the
argument, and less than 1 away from the argument. -/
theorem truncToInt_toward_zero (x : ℚ) :
    |((truncToInt x : Int) : ℚ)| ≤ |x| ∧ |x - ((truncToInt x : Int) : ℚ)| < 1 := by
  unfold truncToInt
  split_ifs with h
  · have h1 : ((Int.floor x : Int) : ℚ) ≤ x := Int.floor_le x
    have h2 : x < ((Int.floor x : Int) : ℚ) + 1 := Int.lt_floor_add_one x
    have h3 : (0 : ℚ) ≤ ((Int.floor x : Int) : ℚ) := by
      exact_mod_cast Int.floor_nonneg.2 h
    constructor
    · rw [abs_of_nonneg h3, abs_of_nonneg h]
      exact h1
    · rw [abs_lt]
      constructor <;> linarith
  · have hx : x < 0 := not_le.1 h
    have h1 : x ≤ ((Int.ceil x : Int) : ℚ) := Int.le_ceil x
    have h2 : ((Int.ceil x : Int) : ℚ) < x + 1 := Int.ceil_lt_add_one x
    have h3 : ((Int.ceil x : Int) : ℚ) ≤ 0 := by
      have : Int.ceil x ≤ 0 := Int.ceil_le.2 (by simpa using le_of_lt hx)
      exact_mod_cast this
    constructor
    · rw [abs_of_nonpos h3, abs_of_neg hx]
      linarith
    · rw [abs_lt]
      constructor <;> linarith

/-- The call `maxQ(nextState)` of an update step is made after `Q[s][a]` has
been read, which inserts the value 0 for an absent pair; it returns what
`maxQ(nextState)` returned before the step unless `nextState = s` and the
pair had no entry. -/
theorem maxQ_read2_eq (q : List (Int × List (Int × Int))) (s a ns : Int)
    (h : ns ≠ s ∨ entry q s a ≠ none) :
    (QLearningAgent.maxQ (IntMap.read2 q s a).2 ns).1 = (QLearningAgent.maxQ q ns).1 := by
  have hrec : recorded (IntMap.read2 q s a).2 ns = recorded q ns := by
    rw [recorded_read2]
    by_cases hs : ns = s
    · subst hs
      rcases h with h | h
      · exact absurd rfl h
      · simp only [if_true]
        unfold entry at h
        unfold IntMap.access
        cases hf : IntMap.find (recorded q ns) a with
        | none => exact absurd hf h
        | some v => rfl
    · simp [hs]
  rw [maxQ_fst_eq, maxQ_fst_eq, hrec]

/-! ## The invariant of the driver protocol -/

theorem mem_availableActions_setTransition (env : Environment) (s0 a0 n s a : Int)
    (h : a ∈ env.availableActions s) : a ∈ (env.setTransition s0 a0 n).availableActions s := by
  rw [mem_availableActions_iff] at h ⊢
  rw [configured_setTransition]
  split_ifs
  · simp
  · exact h

theorem chooseTransition_configured (env : Environment) (RAND_MAX : Nat)
    (ag : QLearningAgent) (state : Int) (r1 r2 : Nat) (a n : Int)
    (hinv : ∀ s x, entry ag.m_qTable s x ≠ none → x ∈ env.availableActions s)
    (h : (ag.chooseTransition env RAND_MAX state r1 r2).1 = .ok (a, n)) :
    a ∈ env.availableActions state ∧ configured env state a = some n ∧
      n = env.nextState state a := by
  by_cases hc : ag.m_qTable = [] ∨ recorded ag.m_qTable state = [] ∨
      (r1 : ℚ) / (RAND_MAX : ℚ) < ag.m_epsilon
  · rw [chooseTransition_explore env RAND_MAX ag state r1 r2 hc] at h
    by_cases hav : env.availableActions state = []
    · rcases randomTransition_cases env state r2 with ⟨_, he⟩ | ⟨hne, _⟩
      · rw [he] at h
        cases h
      · exact absurd hav hne
    · obtain ⟨a', n', hr, hmem, hcfg, hn⟩ := randomTransition_of_available env state r2 hav
      rw [hr] at h
      have hpair : (a', n') = (a, n) := Except.ok.inj h
      have ha : a' = a := congrArg Prod.fst hpair
      have hn' : n' = n := congrArg Prod.snd hpair
      subst ha
      subst hn'
      exact ⟨hmem, hcfg, hn⟩
  · rw [chooseTransition_exploit env RAND_MAX ag state r1 r2 hc] at h
    have hrec : recorded ag.m_qTable state ≠ [] := fun e => hc (Or.inr (Or.inl e))
    obtain ⟨first, rest, hf, hr⟩ := recorded_eq_cons _ _ hrec
    rw [bestTransition_of_find env _ state first rest hf] at h
    have hpair : ((max_element_from compSecond first rest).1,
        env.nextState state (max_element_from compSecond first rest).1) = (a, n) :=
      Except.ok.inj h
    have ha : (max_element_from compSecond first rest).1 = a := congrArg Prod.fst hpair
    have hn : env.nextState state (max_element_from compSecond first rest).1 = n :=
      congrArg Prod.snd hpair
    have hmem := max_element_from_mem compSecond first rest
    have hkey : a ∈ (recorded ag.m_qTable state).map Prod.fst := by
      rw [hr, ← ha]
      exact List.mem_map_of_mem _ hmem
    have hent : entry ag.m_qTable state a ≠ none :=
      (find_ne_none_iff_mem_keys _ a).2 hkey
    have hav := hinv state a hent
    have hcfg := (mem_availableActions_iff env state a).1 hav
    obtain ⟨n', hn'⟩ := Option.ne_none_iff_exists'.1 hcfg
    have hnext : env.nextState state a = n' := by
      rw [nextState_eq_configured, hn']
      rfl
    rw [ha] at hn
    rw [hn] at hnext
    subst hnext
    exact ⟨hav, hn', hn.symm⟩

theorem protocolInv_step (RAND_MAX : Nat) (st : Environment × QLearningAgent)
    (c : ProtocolCall) (h : ProtocolInv st) : ProtocolInv (runProtocolCall RAND_MAX st c) := by
  obtain ⟨env, ag⟩ := st
  obtain ⟨htrace, hent⟩ := h
  simp only at htrace hent
  cases c with
  | setTransition s a n =>
    exact ⟨fun p hp => mem_availableActions_setTransition env s a n _ _ (htrace p hp),
      fun s' a' he => mem_availableActions_setTransition env s a n _ _ (hent s' a' he)⟩
  | startSession =>
    refine ⟨?_, hent⟩
    intro p hp
    simp [runProtocolCall, QLearningAgent.startSession] at hp
  | choose state r1 r2 =>
    obtain ⟨q1, hq, hrec⟩ := chooseTransition_snd env RAND_MAX ag state r1 r2
    show ProtocolInv (env, (ag.chooseTransition env RAND_MAX state r1 r2).2)
    rw [hq]
    refine ⟨htrace, ?_⟩
    intro s a he
    apply hent s a
    unfold entry at he ⊢
    rw [← hrec s]
    exact he
  | chooseAndRecord state r1 r2 =>
    obtain ⟨q1, hq, hrec⟩ := chooseTransition_snd env RAND_MAX ag state r1 r2
    have hentries : ∀ s a, entry q1 s a ≠ none → a ∈ env.availableActions s := by
      intro s a he
      apply hent s a
      unfold entry at he ⊢
      rw [← hrec s]
      exact he
    have hcfg := chooseTransition_configured env RAND_MAX ag state r1 r2
    unfold runProtocolCall
    simp only
    rcases hres : ag.chooseTransition env RAND_MAX state r1 r2 with ⟨res, ag1⟩
    rw [hres] at hq hcfg
    simp only at hq hcfg
    subst hq
    cases res with
    | error e => exact ⟨htrace, hentries⟩
    | ok t =>
      refine ⟨?_, hentries⟩
      intro p hp
      simp only [QLearningAgent.addActionHistory, List.mem_append, List.mem_singleton] at hp
      rcases hp with hp | hp
      · exact htrace p hp
      · rw [hp]
        exact (hcfg t.1 t.2 hent rfl).1
  | stopSession reward =>
    refine ⟨?_, ?_⟩
    · intro p hp
      have hh := (stopSession_fields env ag reward).1
      simp only [runProtocolCall] at hp ⊢
      rw [hh] at hp
      exact htrace p hp
    · intro s a he
      simp only [runProtocolCall] at he ⊢
      rw [stopSession_qTable, foldr_updateStep_entry_ne_none] at he
      rcases he with he | he
      · exact hent s a he
      · exact htrace (s, a) he

theorem protocolInv_foldl (RAND_MAX : Nat) (calls : List ProtocolCall)
    (st : Environment × QLearningAgent) (h : ProtocolInv st) :
    ProtocolInv (calls.foldl (runProtocolCall RAND_MAX) st) := by
  induction calls generalizing st with
  | nil => exact h
  | cons c rest ih => exact ih _ (protocolInv_step RAND_MAX st c h)

/-- C20. Let `st` be the environment and the agent reached from any
environment and a freshly constructed agent by any sequence of protocol calls
(`setTransition`, `startSession`, `chooseTransition` recorded or not by
`addActionHistory` with the action it returned, `stopSession`). Then every
pair of the episode trace and every pair with an entry in the Q-table is a
configured transition; and whenever `chooseTransition(state)` returns
`(a, n)`, `a` is a member of `availableActions(state)` and `n` is the next
state configured for `(state, a)`, the result of a valid lookup. -/
theorem protocol_invariant (RAND_MAX : Nat) (env0 : Environment) (alpha gamma epsilon : ℚ)
    (calls : List ProtocolCall) (st : Environment × QLearningAgent)
    (hst : st = calls.foldl (runProtocolCall RAND_MAX)
      (env0, QLearningAgent.mk [] [] alpha gamma epsilon)) :
    (∀ p ∈ st.2.m_actionHistory, p.2 ∈ st.1.availableActions p.1) ∧
    (∀ s a, entry st.2.m_qTable s a ≠ none → a ∈ st.1.availableActions s) ∧
    (∀ state r1 r2 a n,
      (st.2.chooseTransition st.1 RAND_MAX state r1 r2).1 = .ok (a, n) →
        a ∈ st.1.availableActions state ∧ configured st.1 state a = some n ∧
          n = st.1.nextState state a) := by
  have h0 : ProtocolInv (env0, QLearningAgent.mk [] [] alpha gamma epsilon) := by
    refine ⟨?_, ?_⟩
    · intro p hp
      simp at hp
    · intro s a he
      simp [entry, recorded, IntMap.find] at he
  have hinv := protocolInv_foldl RAND_MAX calls _ h0
  rw [← hst] at hinv
  refine ⟨hinv.1, hinv.2, ?_⟩
  intro state r1 r2 a n h
  exact chooseTransition_configured st.1 RAND_MAX st.2 state r1 r2 a n hinv.2 h

/-- A run of the protocol: `setTransition(0, 2, 1)`, `startSession`, a
recorded step from state 0, `stopSession(100)`. -/
theorem protocol_run_example :
    ((⟨[(0, [(2, 1)])]⟩, QLearningAgent.mk [(0, [(2, 10)]), (1, [])] [(0, 2)] (1/10) (7/10) 0) :
        Environment × QLearningAgent)
      = List.foldl (runProtocolCall 32767)
          (⟨[]⟩, QLearningAgent.mk [] [] (1/10) (7/10) 0)
          [ProtocolCall.setTransition 0 2 1, ProtocolCall.startSession,
           ProtocolCall.chooseAndRecord 0 0 0, ProtocolCall.stopSession 100] := by
  have ht : truncToInt 10 = 10 := by
    rw [truncToInt_eq_iff]
    norm_num
  have h1 : List.foldl (runProtocolCall 32767)
          (⟨[]⟩, QLearningAgent.mk [] [] (1/10) (7/10) 0)
          [ProtocolCall.setTransition 0 2 1, ProtocolCall.startSession,
           ProtocolCall.chooseAndRecord 0 0 0]
      = (⟨[(0, [(2, 1)])]⟩, QLearningAgent.mk [] [(0, 2)] (1/10) (7/10) 0) := rfl
  have h2 : List.foldl (runProtocolCall 32767)
          (⟨[]⟩, QLearningAgent.mk [] [] (1/10) (7/10) 0)
          [ProtocolCall.setTransition 0 2 1, ProtocolCall.startSession,
           ProtocolCall.chooseAndRecord 0 0 0, ProtocolCall.stopSession 100]
      = runProtocolCall 32767 (List.foldl (runProtocolCall 32767)
          (⟨[]⟩, QLearningAgent.mk [] [] (1/10) (7/10) 0)
          [ProtocolCall.setTransition 0 2 1, ProtocolCall.startSession,
           ProtocolCall.chooseAndRecord 0 0 0]) (ProtocolCall.stopSession 100) := rfl
  rw [h2, h1]
  simp [runProtocolCall, QLearningAgent.stopSession, QLearningAgent.updateQTable,
    QLearningAgent.updateLoop, QLearningAgent.updateStep, QLearningAgent.maxQ, IntMap.access,
    IntMap.find, IntMap.insert, IntMap.read2, IntMap.assign2, Environment.nextState]
  norm_num [ht]

theorem protocol_choose_example :
    (QLearningAgent.chooseTransition ⟨[(0, [(2, 1)])]⟩ 32767
      (QLearningAgent.mk [(0, [(2, 10)]), (1, [])] [(0, 2)] (1/10) (7/10) 0) 0 0 0).1
      = .ok (2, 1) := by
  rw [chooseTransition_exploit]
  · rfl
  · simp [recorded, IntMap.find]

/-- Witness of C20: after `setTransition(0, 2, 1)`, `startSession`, one
recorded step from state 0 and `stopSession(100)`, the greedy choice at state
0 returns the configured transition `(2, 1)`. -/
theorem protocol_invariant_witness :
    (QLearningAgent.chooseTransition ⟨[(0, [(2, 1)])]⟩ 32767
      (QLearningAgent.mk [(0, [(2, 10)]), (1, [])] [(0, 2)] (1/10) (7/10) 0) 0 0 0).1
      = .ok (2, 1) ∧
    ((2 : Int) ∈ Environment.availableActions ⟨[(0, [(2, 1)])]⟩ 0 ∧
      configured ⟨[(0, [(2, 1)])]⟩ 0 2 = some 1 ∧
      (1 : Int) = Environment.nextState ⟨[(0, [(2, 1)])]⟩ 0 2) :=
  ⟨protocol_choose_example, (protocol_invariant 32767 ⟨[]⟩ (1/10) (7/10) 0
    [ProtocolCall.setTransition 0 2 1, ProtocolCall.startSession,
     ProtocolCall.chooseAndRecord 0 0 0, ProtocolCall.stopSession 100]
    (⟨[(0, [(2, 1)])]⟩, QLearningAgent.mk [(0, [(2, 10)]), (1, [])] [(0, 2)] (1/10) (7/10) 0)
    protocol_run_example).2.2 0 0 0 2 1 protocol_choose_example⟩

end QLearning
